import Mathlib

/-!
Service worker `sw.js` of VR Explorer Pro: cache lifecycle and fetch routing.

A shallow embedding of `src/sw.js`.

* Strings are Lean strings; a cache store is an insertion-ordered association
  list from request URL to response, and the cache storage is an
  insertion-ordered association list from store name to store.  This is the
  behaviour of the platform objects `caches` / `Cache` that the worker relies
  on (`open` creates a missing store, `put` replaces the entry of the same
  request, `match` returns the entry of the request, `delete` removes).
  Request matching is by URL with the fragment excluded; `Vary` handling is
  outside the model.
* The network is an oracle `Nat → String → FetchResult`: the answer to the
  `n`-th `fetch` of one handler run, for the URL asked.
* The URL parser of the platform (`new URL(..)`) is a parameter of the
  environment.
* Store operations succeed, except the ones a handler takes a failure
  parameter for: `caches.delete` during activation, and the two operations of
  the opportunistic runtime write of the fetch handler.
* Every handler returns, next to its outcome and the new cache storage, the
  list of platform operations it performed.
-/

namespace SW

/-! ## Constants (sw.js lines 2-5) -/

def VERSION : String := "vr-explorer-pro-atomic-2025-10-24b"

def PRECACHE : String := "precache-" ++ VERSION

def TEMP : String := "temp-" ++ VERSION

def RUNTIME : String := "runtime-" ++ VERSION

/-! ## Platform data -/

/-- A captured response: status line and body.  `clone()` is the identity on
this value. -/
structure Response where
  status : Nat
  statusText : String
  body : String
  deriving DecidableEq, Repr

/-- The getter `Response.ok`: the status is in the range 200-299. -/
def Response.ok (r : Response) : Bool := decide (200 ≤ r.status) && decide (r.status ≤ 299)

/-- What `await fetch(..)` gives: it throws, or it resolves with a response. -/
inductive FetchResult where
  | networkError
  | response (r : Response)
  deriving DecidableEq, Repr

/-- The network: the answer to the `n`-th fetch of a handler run for a URL. -/
abbrev Network := Nat → String → FetchResult

/-- One cache store: request URL to response, in insertion order. -/
abbrev Cache := List (String × Response)

/-- The cache storage (`caches`): store name to store, in creation order. -/
abbrev Stores := List (String × Cache)

/-- A platform operation performed by a handler. -/
inductive Event where
  | fetched (url : String) (res : FetchResult)
  | opened (name : String)
  | openRejected (name : String)
  | matched (name : String) (key : String)
  | put (name : String) (key : String)
  | putRejected (name : String) (key : String)
  | entryDeleted (name : String) (key : String)
  | storeDeleted (name : String)
  | storeDeleteRejected (name : String)
  | listedStores
  | listedKeys (name : String)
  | claimedClients
  | skippedWaiting
  deriving DecidableEq, Repr

/-- The store of a given name, if it exists. -/
def findStore (name : String) : Stores → Option Cache
  | [] => none
  | (n, c) :: rest => if n = name then some c else findStore name rest

/-- The operation `caches.keys()`. -/
def storeNames (s : Stores) : List String := s.map Prod.fst

/-- The operation `caches.open(name)`: creates an empty store when none of that name exists. -/
def openStore (name : String) (s : Stores) : Stores :=
  match findStore name s with
  | some _ => s
  | none => s ++ [(name, [])]

/-- The operation `caches.delete(name)`. -/
def deleteStore (name : String) (s : Stores) : Stores :=
  s.filter (fun p => !decide (p.1 = name))

/-- Apply a function to the store of a given name. -/
def updateStore (name : String) (f : Cache → Cache) : Stores → Stores
  | [] => []
  | (n, c) :: rest =>
    if n = name then (n, f c) :: updateStore name f rest else (n, c) :: updateStore name f rest

/-- A request URL with its fragment excluded, the form in which the platform compares the
URL of a request with the URL of a cached request (`Cache.match`, `Cache.put`,
`Cache.delete`): the text before the first `#` of the serialised URL. -/
def dropFragment (url : String) : String :=
  String.mk (url.data.takeWhile (fun c => !decide (c = '#')))

/-- The operation `cache.match(key)` on one store: the first entry whose URL equals the
URL asked, fragments excluded. -/
def Cache.lookup (key : String) : Cache → Option Response
  | [] => none
  | (k, r) :: rest =>
    if dropFragment k = dropFragment key then some r else Cache.lookup key rest

/-- The operation `cache.delete(key)` on one store: every entry whose URL equals the URL
asked, fragments excluded, is removed. -/
def Cache.remove (key : String) (c : Cache) : Cache :=
  c.filter (fun p => !decide (dropFragment p.1 = dropFragment key))

/-- The operation `cache.put(key, resp)` on one store: the entries of the same request are
removed and the new entry is added at the end, under the URL as given. -/
def Cache.insert (key : String) (r : Response) (c : Cache) : Cache :=
  Cache.remove key c ++ [(key, r)]

/-- The operation `cache.match(key)` through a handle on the store `name`. -/
def cacheMatch (name key : String) (s : Stores) : Option Response :=
  match findStore name s with
  | some c => Cache.lookup key c
  | none => none

/-- The operation `cache.keys()` through a handle on the store `name`. -/
def cacheKeys (name : String) (s : Stores) : List String :=
  match findStore name s with
  | some c => c.map Prod.fst
  | none => []

/-- The operation `cache.put(key, resp)` through a handle on the store `name`. -/
def cachePut (name key : String) (r : Response) (s : Stores) : Stores :=
  updateStore name (Cache.insert key r) s

/-- The operation `cache.delete(key)` through a handle on the store `name`. -/
def cacheDelete (name key : String) (s : Stores) : Stores :=
  updateStore name (Cache.remove key) s

/-! ## URL helpers (sw.js lines 17-34) -/

/-- A parsed URL: its origin, its serialisation without the fragment, and the fragment
(with its leading `#`, or empty). -/
structure Url where
  origin : String
  withoutHash : String
  hash : String
  deriving DecidableEq, Repr

/-- The getter `URL.href`. -/
def Url.href (u : Url) : String := u.withoutHash ++ u.hash

/-- The worker's environment: the platform URL parser relative to `self.location.href`
(`none` when `new URL` throws), the origin `self.location.origin`, and the directory URL of
the worker script, against which `./name` resolves. -/
structure Env where
  parseUrl : String → Option Url
  origin : String
  scope : String

/-- The expression `new URL(ref, self.location.href).href` for the literal references
`./`, `./index.html`, `./manifest.json` and `./sw.js` of the worker: the directory of the
worker script followed by the file name. -/
def hrefOf (env : Env) (ref : String) : String := env.scope ++ ref.drop 2

def isSameOrigin (env : Env) (urlString : String) : Bool :=
  match env.parseUrl urlString with
  | some u => decide (u.origin = env.origin)
  | none => false

def normalizeUrl (env : Env) (raw : String) : Option String :=
  match env.parseUrl raw with
  | some u => some ({ u with hash := "" } : Url).href
  | none => none

/-! ## Activation (sw.js lines 102-114) -/

/-- The method `String.prototype.includes` on character lists. -/
def includesChars (needle : List Char) : List Char → Bool
  | [] => needle.isEmpty
  | c :: cs => needle.isPrefixOf (c :: cs) || includesChars needle cs

/-- The call `key.includes(search)`. -/
def includes (key search : String) : Bool := includesChars search.data key.data

inductive ActivateOutcome where
  | activated
  | failed
  deriving DecidableEq, Repr

/-- The callback of `keys.map` in the activate handler, for one store name: a store whose
name lacks the version is deleted; `deleteFails` tells for which names `caches.delete`
rejects.  Returns whether a rejection happened. -/
def purgeOne (deleteFails : String → Bool) (key : String) (acc : Bool × Stores × List Event) :
    Bool × Stores × List Event :=
  if !includes key VERSION then
    if deleteFails key then (true, acc.2.1, acc.2.2 ++ [Event.storeDeleteRejected key])
    else (acc.1, deleteStore key acc.2.1, acc.2.2 ++ [Event.storeDeleted key])
  else acc

/-- The activate handler. -/
def activate (deleteFails : String → Bool) (s : Stores) : ActivateOutcome × Stores × List Event :=
  let keys := storeNames s
  let r := keys.foldl (fun acc key => purgeOne deleteFails key acc) (false, s, [Event.listedStores])
  if r.1 then (ActivateOutcome.failed, r.2.1, r.2.2)
  else (ActivateOutcome.activated, r.2.1, r.2.2 ++ [Event.claimedClients])

/-! ## Asset discovery (sw.js lines 7-15 and 36-54) -/

/-- The pieces the seven patterns of `ASSET_ATTR_PATTERNS` are made of: a literal (matched
ignoring case, flag `i`), the class `["']`, the greedy repetition `[^>]+`, and the capture
group `([^"']+)`. -/
inductive Rx where
  | lit (s : String)
  | quote
  | notGtPlus
  | group
  deriving DecidableEq, Repr

def ASSET_ATTR_PATTERNS : List (List Rx) :=
  [ [Rx.lit "<script", Rx.notGtPlus, Rx.lit "src=", Rx.quote, Rx.group, Rx.quote],
    [Rx.lit "<link", Rx.notGtPlus, Rx.lit "href=", Rx.quote, Rx.group, Rx.quote],
    [Rx.lit "<img", Rx.notGtPlus, Rx.lit "src=", Rx.quote, Rx.group, Rx.quote],
    [Rx.lit "<source", Rx.notGtPlus, Rx.lit "src=", Rx.quote, Rx.group, Rx.quote],
    [Rx.lit "<video", Rx.notGtPlus, Rx.lit "src=", Rx.quote, Rx.group, Rx.quote],
    [Rx.lit "src=", Rx.quote, Rx.group, Rx.quote],
    [Rx.lit "href=", Rx.quote, Rx.group, Rx.quote] ]

/-- The class `["']`: the double quote (code 34) or the single quote (code 39). -/
def isQuote (c : Char) : Bool := c.toNat == 34 || c.toNat == 39

/-- A successful match: the text of group 1 and the input left after the match. -/
structure RxMatch where
  group1 : List Char
  rest : List Char
  deriving DecidableEq, Repr

/-- Match a literal ignoring case; gives the input left after it. -/
def stripLit : List Char → List Char → Option (List Char)
  | [], cs => some cs
  | _ :: _, [] => none
  | p :: ps, c :: cs => if p.toLower = c.toLower then stripLit ps cs else none

/-- A greedy `+` over a character class, with backtracking: take one character of the class,
then first try to take more, and only then hand over to the continuation `k`, which gets the
text taken and the input left. -/
def plusGreedy (p : Char → Bool) (k : List Char → List Char → Option RxMatch) :
    List Char → List Char → Option RxMatch
  | _, [] => none
  | acc, c :: cs =>
    if p c then
      match plusGreedy p k (acc ++ [c]) cs with
      | some m => some m
      | none => k (acc ++ [c]) cs
    else none

/-- Match a pattern at the start of the input. -/
def matchHere : List Rx → List Char → List Char → Option RxMatch
  | [], cap, cs => some ⟨cap, cs⟩
  | Rx.lit s :: ps, cap, cs =>
    match stripLit s.data cs with
    | some rest => matchHere ps cap rest
    | none => none
  | Rx.quote :: ps, cap, cs =>
    match cs with
    | c :: rest => if isQuote c then matchHere ps cap rest else none
    | [] => none
  | Rx.notGtPlus :: ps, cap, cs =>
    plusGreedy (fun c => decide (c ≠ '>')) (fun _ rest => matchHere ps cap rest) [] cs
  | Rx.group :: ps, _, cs =>
    plusGreedy (fun c => !isQuote c) (fun g rest => matchHere ps g rest) [] cs

/-- The loop `while ((m = rx.exec(htmlText)) !== null)` with the flag `g`: the group-1 texts
of the successive leftmost matches, each search starting where the previous match ended.
`skip` counts the characters of the last match still to be passed over. -/
def execAll (rx : List Rx) : Nat → List Char → List (List Char)
  | _, [] => []
  | skip + 1, _ :: cs => execAll rx skip cs
  | 0, c :: cs =>
    match matchHere rx [] (c :: cs) with
    | some m => m.group1 :: execAll rx ((c :: cs).length - m.rest.length - 1) cs
    | none => execAll rx 0 cs

/-- The method `Set.prototype.add` on an insertion-ordered set. -/
def setAdd (found : List String) (x : String) : List String :=
  if x ∈ found then found else found ++ [x]

/-- The method `Set.prototype.delete`. -/
def setDelete (found : List String) (x : String) : List String :=
  found.filter (fun y => decide (y ≠ x))

/-- The body of the inner loop (lines 42-45) for one match. -/
def addMatch (env : Env) (found : List String) (m1 : List Char) : List String :=
  if m1.isEmpty then found
  else
    match normalizeUrl env (String.mk m1) with
    | some norm => if norm ≠ "" ∧ isSameOrigin env norm = true then setAdd found norm else found
    | none => found

def discoverAssetsFromHtml (env : Env) (htmlText : String) : List String :=
  let found := ASSET_ATTR_PATTERNS.foldl
    (fun found rx => (execAll rx 0 htmlText.data).foldl (addMatch env) found) []
  let found := setAdd found (hrefOf env "./")
  let found := setAdd found (hrefOf env "./index.html")
  let found := setAdd found (hrefOf env "./manifest.json")
  let swUrl := hrefOf env "./sw.js"
  setDelete found swUrl

/-! ## Install (sw.js lines 56-99) -/

inductive InstallOutcome where
  | done
  | failed
  deriving DecidableEq, Repr

/-- The loop over `toFetch` (lines 76-86); `n` is the number of fetches made so far.  The
Boolean tells whether the loop ran to its end. -/
def fetchAssets (env : Env) (net : Network) :
    Nat → List String → Stores → List Event → Bool × Stores × List Event
  | _, [], s, ev => (true, s, ev)
  | n, assetUrl :: rest, s, ev =>
    if assetUrl = hrefOf env "./sw.js" then fetchAssets env net n rest s ev
    else
      match net n assetUrl with
      | FetchResult.networkError =>
        (false, s, ev ++ [Event.fetched assetUrl FetchResult.networkError])
      | FetchResult.response resp =>
        if resp.ok then
          fetchAssets env net (n + 1) rest (cachePut TEMP assetUrl resp s)
            (ev ++ [Event.fetched assetUrl (FetchResult.response resp), Event.put TEMP assetUrl])
        else (false, s, ev ++ [Event.fetched assetUrl (FetchResult.response resp)])

/-- The copy of one staged entry into the precache (lines 93-94). -/
def copyEntry (st : Stores) (req : String) : Stores :=
  match cacheMatch TEMP req st with
  | some r => cachePut PRECACHE req r st
  | none => st

/-- The commit (lines 88-96): clear the precache, copy every staged entry, delete the staging
store. -/
def commit (s : Stores) : Stores :=
  let s1 := openStore PRECACHE s
  let oldKeys := cacheKeys PRECACHE s1
  let s2 := oldKeys.foldl (fun st k => cacheDelete PRECACHE k st) s1
  let tempKeys := cacheKeys TEMP s2
  let s3 := tempKeys.foldl copyEntry s2
  deleteStore TEMP s3

/-- The copy of one staged entry, seen on the precache store alone, `staged` being the
staging store. -/
def stageInto (staged : Cache) (c : Cache) (req : String) : Cache :=
  match Cache.lookup req staged with
  | some r => Cache.insert req r c
  | none => c

/-- The platform operations of the commit. -/
def commitEvents (s : Stores) : List Event :=
  let s1 := openStore PRECACHE s
  [Event.opened PRECACHE, Event.listedKeys PRECACHE]
    ++ (cacheKeys PRECACHE s1).map (Event.entryDeleted PRECACHE)
    ++ [Event.listedKeys TEMP]
    ++ (cacheKeys TEMP s1).flatMap (fun k => [Event.matched TEMP k, Event.put PRECACHE k])
    ++ [Event.storeDeleted TEMP]

/-- The install handler. -/
def install (env : Env) (net : Network) (s : Stores) : InstallOutcome × Stores × List Event :=
  let ev0 := [Event.skippedWaiting, Event.opened TEMP]
  let s1 := openStore TEMP s
  let indexUrl := hrefOf env "./index.html"
  match net 0 indexUrl with
  | FetchResult.networkError =>
    (InstallOutcome.failed, s1, ev0 ++ [Event.fetched indexUrl FetchResult.networkError])
  | FetchResult.response indexResp =>
    let ev1 := ev0 ++ [Event.fetched indexUrl (FetchResult.response indexResp)]
    if indexResp.ok then
      let indexText := indexResp.body
      let s2 := cachePut TEMP indexUrl indexResp s1
      let assets := discoverAssetsFromHtml env indexText
      let toFetch := assets.foldl setAdd []
      let r := fetchAssets env net 1 toFetch s2 (ev1 ++ [Event.put TEMP indexUrl])
      if r.1 then (InstallOutcome.done, commit r.2.1, r.2.2 ++ commitEvents r.2.1)
      else (InstallOutcome.failed, r.2.1, r.2.2)
    else (InstallOutcome.failed, s1, ev1)

/-! ## Fetch (sw.js lines 116-145) -/

structure Request where
  method : String
  url : String
  mode : String
  deriving DecidableEq, Repr

/-- The store operations of the opportunistic runtime write (lines 129-130) that reject:
`caches.open(RUNTIME)` and `runtimeCache.put(..)`.  Every other store operation of the worker
is taken to succeed. -/
structure Faults where
  openRuntime : Bool
  putRuntime : Bool
  deriving DecidableEq, Repr

inductive FetchOutcome where
  | passthrough
  | respond (r : Response)
  deriving DecidableEq, Repr

/-- The synthetic response of line 142. -/
def offlineResponse : Response := { status := 503, statusText := "Offline", body := "Offline" }

/-- The `catch` block (lines 133-143). -/
def fetchFallback (env : Env) (req : Request) (s : Stores) (ev : List Event) :
    FetchOutcome × Stores × List Event :=
  let s1 := openStore RUNTIME s
  let ev1 := ev ++ [Event.opened RUNTIME, Event.matched RUNTIME req.url]
  match cacheMatch RUNTIME req.url s1 with
  | some cachedRuntime => (FetchOutcome.respond cachedRuntime, s1, ev1)
  | none =>
    if req.mode = "navigate" then
      let indexUrl := hrefOf env "./index.html"
      match cacheMatch PRECACHE indexUrl s1 with
      | some fallbackIndex =>
        (FetchOutcome.respond fallbackIndex, s1, ev1 ++ [Event.matched PRECACHE indexUrl])
      | none =>
        let rootUrl := hrefOf env "./"
        let ev2 := ev1 ++ [Event.matched PRECACHE indexUrl, Event.matched PRECACHE rootUrl]
        match cacheMatch PRECACHE rootUrl s1 with
        | some fallbackIndex => (FetchOutcome.respond fallbackIndex, s1, ev2)
        | none => (FetchOutcome.respond offlineResponse, s1, ev2)
    else (FetchOutcome.respond offlineResponse, s1, ev1)

/-- The task handed to `event.respondWith` (lines 122-144).  The detached `put` of line 130
is applied before the result is observed. -/
def respondTo (env : Env) (net : Network) (faults : Faults) (s : Stores) (req : Request) :
    FetchOutcome × Stores × List Event :=
  let s1 := openStore PRECACHE s
  let ev1 := [Event.opened PRECACHE, Event.matched PRECACHE req.url]
  match cacheMatch PRECACHE req.url s1 with
  | some precached => (FetchOutcome.respond precached, s1, ev1)
  | none =>
    match net 0 req.url with
    | FetchResult.response networkResp =>
      let ev2 := ev1 ++ [Event.fetched req.url (FetchResult.response networkResp)]
      if networkResp.ok then
        if faults.openRuntime then
          fetchFallback env req s1 (ev2 ++ [Event.openRejected RUNTIME])
        else
          let s2 := openStore RUNTIME s1
          if faults.putRuntime then
            (FetchOutcome.respond networkResp, s2,
              ev2 ++ [Event.opened RUNTIME, Event.putRejected RUNTIME req.url])
          else
            (FetchOutcome.respond networkResp, cachePut RUNTIME req.url networkResp s2,
              ev2 ++ [Event.opened RUNTIME, Event.put RUNTIME req.url])
      else (FetchOutcome.respond networkResp, s1, ev2)
    | FetchResult.networkError =>
      fetchFallback env req s1 (ev1 ++ [Event.fetched req.url FetchResult.networkError])

/-- The fetch handler: requests that are not GET or not of the worker's origin are left to
the platform.  The text `req.url` is an absolute URL, so parsing it needs no base. -/
def onFetch (env : Env) (net : Network) (faults : Faults) (s : Stores) (req : Request) :
    FetchOutcome × Stores × List Event :=
  if req.method ≠ "GET" then (FetchOutcome.passthrough, s, [])
  else
    match env.parseUrl req.url with
    | none => (FetchOutcome.passthrough, s, [])
    | some reqUrl =>
      if reqUrl.origin ≠ env.origin then (FetchOutcome.passthrough, s, [])
      else respondTo env net faults s req

/-- The fallback order of the spec (4.5, steps 3 to 5), read on a cache storage: the
runtime entry of the request; else, for a navigation, the precached entry document, else the
precached site root; else the synthetic offline response. -/
def layeredFallback (env : Env) (s : Stores) (req : Request) : Response :=
  match cacheMatch RUNTIME req.url s with
  | some r => r
  | none =>
    if req.mode = "navigate" then
      match cacheMatch PRECACHE (hrefOf env "./index.html") s with
      | some r => r
      | none =>
        match cacheMatch PRECACHE (hrefOf env "./") s with
        | some r => r
        | none => offlineResponse
    else offlineResponse

/-- A fetch that threw or resolved with a non-ok response. -/
def FetchResult.failed : FetchResult → Bool
  | FetchResult.networkError => true
  | FetchResult.response r => !r.ok

/-- No fetch in the list of operations threw or resolved with a non-ok response. -/
def noFailedFetch (ev : List Event) : Prop :=
  ∀ url res, Event.fetched url res ∈ ev → res.failed = false

/-- The number of network accesses in a list of operations. -/
def networkAccesses (ev : List Event) : Nat :=
  (ev.filter (fun e => match e with | Event.fetched _ _ => true | _ => false)).length

/-! ## Sample data -/

/-- A sample URL parser for a worker at `https://app.example/Explorer6/sw.js`, meant for the
references of the sample runs only: an absolute `https://host/path` URL, a reference
starting with `/`, a reference starting with `./`, or a plain relative path (no `..`, no
query, no character that the platform would escape).  The fragment is split off at the first
`#`; an `https` URL whose host starts with `[` (an unclosed IPv6 literal) is refused. -/
def sampleParse (raw : String) : Option Url :=
  let body := raw.data.takeWhile (fun c => !decide (c = '#'))
  let hash := String.mk (raw.data.dropWhile (fun c => !decide (c = '#')))
  if "https://[".data.isPrefixOf body then none
  else if "https://".data.isPrefixOf body then
    some { origin := "https://" ++ String.mk ((body.drop 8).takeWhile (fun c => !decide (c = '/'))),
           withoutHash := String.mk body, hash := hash }
  else if "/".data.isPrefixOf body then
    some { origin := "https://app.example",
           withoutHash := "https://app.example" ++ String.mk body, hash := hash }
  else if "./".data.isPrefixOf body then
    some { origin := "https://app.example",
           withoutHash := "https://app.example/Explorer6/" ++ String.mk (body.drop 2),
           hash := hash }
  else
    some { origin := "https://app.example",
           withoutHash := "https://app.example/Explorer6/" ++ String.mk body, hash := hash }

def sampleEnv : Env :=
  { parseUrl := sampleParse, origin := "https://app.example", scope := "https://app.example/Explorer6/" }

/-- A network on which every fetch resolves with the same response. -/
def constNet (r : Response) : Network := fun _ _ => FetchResult.response r

def okResp (body : String) : Response := { status := 200, statusText := "OK", body := body }

def notFound : Response := { status := 404, statusText := "Not Found", body := "" }

def sampleGet (url mode : String) : Request := { method := "GET", url := url, mode := mode }

def noFaults : Faults := { openRuntime := false, putRuntime := false }

/-- A site of four documents: the entry document references one script. -/
def samplePages : List (String × String) :=
  [("https://app.example/Explorer6/index.html", "<script src=\"app.js\"></script>"),
    ("https://app.example/Explorer6/", "<script src=\"app.js\"></script>"),
    ("https://app.example/Explorer6/manifest.json", "meta"),
    ("https://app.example/Explorer6/app.js", "code")]

/-- A staging store left behind by an install attempt that failed, made when the entry
document still referenced `old.js`. -/
def leftoverStaging : Stores :=
  [(TEMP, [("https://app.example/Explorer6/old.js", okResp "old")])]

/-- The site at the time of a first install attempt: the entry document references `old.js`,
which is served, and `missing.js`, which is not. -/
def firstAttemptPages : List (String × String) :=
  [("https://app.example/Explorer6/index.html",
      "<script src=\"old.js\"></script><script src=\"missing.js\"></script>"),
    ("https://app.example/Explorer6/", "root"),
    ("https://app.example/Explorer6/manifest.json", "meta"),
    ("https://app.example/Explorer6/old.js", "old")]

/-- A network that serves the given pages with status 200 and answers 404 for the rest. -/
def siteNet (pages : List (String × String)) : Network := fun _ url =>
  match pages.lookup url with
  | some body => FetchResult.response (okResp body)
  | none => FetchResult.response notFound

/-! ## Lemmas on the cache storage -/

theorem findStore_append (name : String) (s t : Stores) :
    findStore name (s ++ t) = (findStore name s).orElse (fun _ => findStore name t) := by
  induction s with
  | nil => simp [findStore]
  | cons p rest ih =>
    obtain ⟨n, c⟩ := p
    by_cases h : n = name <;> simp [findStore, h, ih]

theorem findStore_openStore_same (name : String) (s : Stores) :
    findStore name (openStore name s) = some ((findStore name s).getD []) := by
  unfold openStore
  cases h : findStore name s with
  | some c => simp [h]
  | none => simp [findStore_append, h, findStore]

theorem findStore_openStore_ne {name other : String} (h : name ≠ other) (s : Stores) :
    findStore name (openStore other s) = findStore name s := by
  unfold openStore
  cases h2 : findStore other s with
  | some c => rfl
  | none =>
    have h3 : ¬ other = name := fun e => h e.symm
    cases h4 : findStore name s <;> simp [findStore_append, findStore, h3, h4]

theorem findStore_updateStore_same (name : String) (f : Cache → Cache) (s : Stores) :
    findStore name (updateStore name f s) = (findStore name s).map f := by
  induction s with
  | nil => simp [findStore, updateStore]
  | cons p rest ih =>
    obtain ⟨n, c⟩ := p
    by_cases h : n = name <;> simp [findStore, updateStore, h, ih]

theorem findStore_updateStore_ne {name other : String} (h : name ≠ other) (f : Cache → Cache)
    (s : Stores) : findStore name (updateStore other f s) = findStore name s := by
  induction s with
  | nil => simp [findStore, updateStore]
  | cons p rest ih =>
    obtain ⟨n, c⟩ := p
    by_cases h1 : n = other
    · have h2 : ¬ other = name := fun e => h e.symm
      subst h1
      simp [findStore, updateStore, h2, ih]
    · by_cases h2 : n = name
      · subst h2
        simp [findStore, updateStore, h1]
      · simp [findStore, updateStore, h1, h2, ih]

theorem findStore_deleteStore_ne {name other : String} (h : name ≠ other) (s : Stores) :
    findStore name (deleteStore other s) = findStore name s := by
  induction s with
  | nil => simp [findStore, deleteStore]
  | cons p rest ih =>
    obtain ⟨n, c⟩ := p
    simp only [deleteStore] at ih ⊢
    by_cases h1 : n = other
    · have h2 : ¬ other = name := fun e => h e.symm
      subst h1
      simp [findStore, List.filter_cons, h2, ih]
    · by_cases h2 : n = name
      · subst h2
        simp [findStore, List.filter_cons, h1]
      · simp [findStore, List.filter_cons, h1, h2, ih]

theorem findStore_deleteStore_same (name : String) (s : Stores) :
    findStore name (deleteStore name s) = none := by
  induction s with
  | nil => simp [findStore, deleteStore]
  | cons p rest ih =>
    obtain ⟨n, c⟩ := p
    simp only [deleteStore] at ih ⊢
    by_cases h1 : n = name <;> simp [findStore, List.filter_cons, h1, ih]

theorem cacheMatch_openStore (name key other : String) (s : Stores) :
    cacheMatch name key (openStore other s) = cacheMatch name key s := by
  unfold cacheMatch
  by_cases h : name = other
  · subst h
    rw [findStore_openStore_same]
    cases findStore name s <;> simp [Cache.lookup]
  · rw [findStore_openStore_ne h]

theorem Cache.lookup_append (key : String) (c d : Cache) :
    Cache.lookup key (c ++ d) = (Cache.lookup key c).orElse (fun _ => Cache.lookup key d) := by
  induction c with
  | nil => simp [Cache.lookup]
  | cons p rest ih =>
    obtain ⟨k, r⟩ := p
    by_cases h : dropFragment k = dropFragment key <;> simp [Cache.lookup, h, ih]

theorem Cache.lookup_congr {key other : String} (h : dropFragment key = dropFragment other)
    (c : Cache) : Cache.lookup key c = Cache.lookup other c := by
  induction c with
  | nil => rfl
  | cons p rest ih =>
    obtain ⟨k, r⟩ := p
    simp only [Cache.lookup, h, ih]

theorem Cache.lookup_remove_same (key : String) (c : Cache) :
    Cache.lookup key (Cache.remove key c) = none := by
  induction c with
  | nil => simp [Cache.lookup, Cache.remove]
  | cons p rest ih =>
    obtain ⟨k, r⟩ := p
    simp only [Cache.remove] at ih ⊢
    by_cases h : dropFragment k = dropFragment key <;>
      simp [Cache.lookup, List.filter_cons, h, ih]

theorem Cache.lookup_remove_ne {key other : String}
    (h : dropFragment key ≠ dropFragment other) (c : Cache) :
    Cache.lookup key (Cache.remove other c) = Cache.lookup key c := by
  induction c with
  | nil => simp [Cache.lookup, Cache.remove]
  | cons p rest ih =>
    obtain ⟨k, r⟩ := p
    simp only [Cache.remove] at ih ⊢
    by_cases h1 : dropFragment k = dropFragment other
    · have h3 : ¬ dropFragment other = dropFragment key := fun e => h e.symm
      simp [Cache.lookup, List.filter_cons, h1, h3, ih]
    · by_cases h2 : dropFragment k = dropFragment key
      · simp [Cache.lookup, List.filter_cons, h2, h]
      · simp [Cache.lookup, List.filter_cons, h1, h2, ih]

theorem Cache.lookup_insert_same (key : String) (r : Response) (c : Cache) :
    Cache.lookup key (Cache.insert key r c) = some r := by
  simp [Cache.insert, Cache.lookup_append, Cache.lookup_remove_same, Cache.lookup]

theorem Cache.lookup_insert_ne {key other : String}
    (h : dropFragment key ≠ dropFragment other) (r : Response) (c : Cache) :
    Cache.lookup key (Cache.insert other r c) = Cache.lookup key c := by
  have h2 : ¬ dropFragment other = dropFragment key := fun e => h e.symm
  cases h3 : Cache.lookup key c <;>
    simp [Cache.insert, Cache.lookup_append, Cache.lookup_remove_ne h, Cache.lookup, h2, h3]

theorem cacheMatch_cachePut_same (name key : String) (r : Response) (s : Stores)
    (h : (findStore name s).isSome = true) :
    cacheMatch name key (cachePut name key r s) = some r := by
  unfold cacheMatch cachePut
  rw [findStore_updateStore_same]
  cases h2 : findStore name s with
  | none => simp [h2] at h
  | some c => simp [Cache.lookup_insert_same]

theorem names_distinct :
    PRECACHE ≠ TEMP ∧ PRECACHE ≠ RUNTIME ∧ TEMP ≠ RUNTIME := by decide

/-! ## The fetch handler -/

theorem onFetch_intercepted (env : Env) (net : Network) (faults : Faults) (s : Stores)
    (req : Request) (u : Url) (hGet : req.method = "GET")
    (hUrl : env.parseUrl req.url = some u) (hOrigin : u.origin = env.origin) :
    onFetch env net faults s req = respondTo env net faults s req := by
  simp [onFetch, hGet, hUrl, hOrigin]

theorem openStore_of_match {name key : String} {s : Stores} {r : Response}
    (h : cacheMatch name key s = some r) : openStore name s = s := by
  unfold cacheMatch at h
  unfold openStore
  cases h2 : findStore name s with
  | none => simp [h2] at h
  | some c => rfl

theorem fetchFallback_response (env : Env) (req : Request) (s : Stores) (ev : List Event) :
    (fetchFallback env req s ev).1 = FetchOutcome.respond (layeredFallback env s req) := by
  unfold fetchFallback layeredFallback
  simp only [cacheMatch_openStore]
  cases cacheMatch RUNTIME req.url s with
  | some r => rfl
  | none =>
    by_cases hn : req.mode = "navigate"
    · simp only [hn, if_true]
      cases cacheMatch PRECACHE (hrefOf env "./index.html") s with
      | some r => rfl
      | none =>
        cases cacheMatch PRECACHE (hrefOf env "./") s with
        | some r => rfl
        | none => rfl
    · simp only [hn, if_false]

/-- C5: a same-origin GET request that has an entry in the precache store (URLs compared with
the fragment excluded, as `Cache.match` does) is answered with that entry; the handler makes no
network fetch (the count of network accesses is zero), performs exactly the two operations "open
the precache" and "look the request up in it", so it neither opens nor writes the runtime store,
and the cache storage is left as it was. -/
theorem fetch_precache_hit (env : Env) (net : Network) (faults : Faults) (s : Stores)
    (req : Request) (u : Url) (r : Response) (hGet : req.method = "GET")
    (hUrl : env.parseUrl req.url = some u) (hOrigin : u.origin = env.origin)
    (hPre : cacheMatch PRECACHE req.url s = some r) :
    (onFetch env net faults s req).1 = FetchOutcome.respond r
    ∧ networkAccesses (onFetch env net faults s req).2.2 = 0
    ∧ (onFetch env net faults s req).2.2
        = [Event.opened PRECACHE, Event.matched PRECACHE req.url]
    ∧ Event.opened RUNTIME ∉ (onFetch env net faults s req).2.2
    ∧ (∀ k, Event.put RUNTIME k ∉ (onFetch env net faults s req).2.2)
    ∧ (onFetch env net faults s req).2.1 = s := by
  have hne : ¬ RUNTIME = PRECACHE := fun e => names_distinct.2.1 e.symm
  rw [onFetch_intercepted env net faults s req u hGet hUrl hOrigin]
  simp [respondTo, openStore_of_match hPre, hPre, networkAccesses, hne]

theorem fetch_precache_hit_witness :
    (onFetch sampleEnv (constNet notFound) noFaults
        [(PRECACHE, [("https://app.example/Explorer6/icons.svg", okResp "icons")])]
        (sampleGet "https://app.example/Explorer6/icons.svg#home" "no-cors")).1
      = FetchOutcome.respond (okResp "icons")
    ∧ networkAccesses (onFetch sampleEnv (constNet notFound) noFaults
        [(PRECACHE, [("https://app.example/Explorer6/icons.svg", okResp "icons")])]
        (sampleGet "https://app.example/Explorer6/icons.svg#home" "no-cors")).2.2 = 0 :=
  have h := fetch_precache_hit sampleEnv (constNet notFound) noFaults
    [(PRECACHE, [("https://app.example/Explorer6/icons.svg", okResp "icons")])]
    (sampleGet "https://app.example/Explorer6/icons.svg#home" "no-cors")
    { origin := "https://app.example",
      withoutHash := "https://app.example/Explorer6/icons.svg", hash := "#home" }
    (okResp "icons") rfl (by decide) rfl (by decide)
  ⟨h.1, h.2.1⟩

theorem respondTo_miss_eq (env : Env) (net : Network) (faults : Faults) (s : Stores)
    (req : Request) (hPre : cacheMatch PRECACHE req.url s = none) :
    respondTo env net faults s req =
      match net 0 req.url with
      | FetchResult.response networkResp =>
        if networkResp.ok then
          if faults.openRuntime then
            fetchFallback env req (openStore PRECACHE s)
              ([Event.opened PRECACHE, Event.matched PRECACHE req.url]
                ++ [Event.fetched req.url (FetchResult.response networkResp)]
                ++ [Event.openRejected RUNTIME])
          else if faults.putRuntime then
            (FetchOutcome.respond networkResp, openStore RUNTIME (openStore PRECACHE s),
              [Event.opened PRECACHE, Event.matched PRECACHE req.url]
                ++ [Event.fetched req.url (FetchResult.response networkResp)]
                ++ [Event.opened RUNTIME, Event.putRejected RUNTIME req.url])
          else
            (FetchOutcome.respond networkResp,
              cachePut RUNTIME req.url networkResp (openStore RUNTIME (openStore PRECACHE s)),
              [Event.opened PRECACHE, Event.matched PRECACHE req.url]
                ++ [Event.fetched req.url (FetchResult.response networkResp)]
                ++ [Event.opened RUNTIME, Event.put RUNTIME req.url])
        else
          (FetchOutcome.respond networkResp, openStore PRECACHE s,
            [Event.opened PRECACHE, Event.matched PRECACHE req.url]
              ++ [Event.fetched req.url (FetchResult.response networkResp)])
      | FetchResult.networkError =>
        fetchFallback env req (openStore PRECACHE s)
          ([Event.opened PRECACHE, Event.matched PRECACHE req.url]
            ++ [Event.fetched req.url FetchResult.networkError]) := by
  unfold respondTo
  simp only [cacheMatch_openStore, hPre]

/-- C6: a same-origin GET request that matches no precache entry and whose network fetch
resolves with an ok response, when opening the runtime store and the write into it both succeed,
is answered with that live response, and afterwards the runtime store holds that response for
the request. -/
theorem fetch_network_success_cached (env : Env) (net : Network) (faults : Faults) (s : Stores)
    (req : Request) (u : Url) (resp : Response) (hGet : req.method = "GET")
    (hUrl : env.parseUrl req.url = some u) (hOrigin : u.origin = env.origin)
    (hPre : cacheMatch PRECACHE req.url s = none)
    (hNet : net 0 req.url = FetchResult.response resp) (hOk : resp.ok = true)
    (hOpen : faults.openRuntime = false) (hPut : faults.putRuntime = false) :
    (onFetch env net faults s req).1 = FetchOutcome.respond resp
    ∧ cacheMatch RUNTIME req.url (onFetch env net faults s req).2.1 = some resp := by
  rw [onFetch_intercepted env net faults s req u hGet hUrl hOrigin,
    respondTo_miss_eq env net faults s req hPre]
  simp only [hNet, hOk, hOpen, hPut, if_true, Bool.false_eq_true, if_false, true_and]
  apply cacheMatch_cachePut_same
  rw [findStore_openStore_same]
  rfl

theorem fetch_network_success_cached_witness :
    (onFetch sampleEnv (constNet (okResp "live")) noFaults
        [(PRECACHE, [("https://app.example/Explorer6/app.js", okResp "app")])]
        (sampleGet "https://app.example/Explorer6/api/list.json#top" "cors")).1
      = FetchOutcome.respond (okResp "live")
    ∧ cacheMatch RUNTIME "https://app.example/Explorer6/api/list.json#top"
        (onFetch sampleEnv (constNet (okResp "live")) noFaults
          [(PRECACHE, [("https://app.example/Explorer6/app.js", okResp "app")])]
          (sampleGet "https://app.example/Explorer6/api/list.json#top" "cors")).2.1
      = some (okResp "live") :=
  fetch_network_success_cached sampleEnv (constNet (okResp "live")) noFaults
    [(PRECACHE, [("https://app.example/Explorer6/app.js", okResp "app")])]
    (sampleGet "https://app.example/Explorer6/api/list.json#top" "cors")
    { origin := "https://app.example",
      withoutHash := "https://app.example/Explorer6/api/list.json", hash := "#top" }
    (okResp "live") rfl (by decide) rfl (by decide) rfl (by decide) rfl rfl

/-- C7: a same-origin GET request that matches no precache entry and whose network fetch
resolves with a non-ok response is answered with that very response; the handler performs
exactly three operations (open the precache, look the request up in it, fetch), so it consults
neither the runtime store nor the shell entries and does not build the synthetic 503; the
runtime store is as it was before, for every behaviour of the store operations. -/
theorem fetch_error_status_passthrough (env : Env) (net : Network) (faults : Faults)
    (s : Stores) (req : Request) (u : Url) (resp : Response) (hGet : req.method = "GET")
    (hUrl : env.parseUrl req.url = some u) (hOrigin : u.origin = env.origin)
    (hPre : cacheMatch PRECACHE req.url s = none)
    (hNet : net 0 req.url = FetchResult.response resp) (hOk : resp.ok = false) :
    (onFetch env net faults s req).1 = FetchOutcome.respond resp
    ∧ (onFetch env net faults s req).2.2
        = [Event.opened PRECACHE, Event.matched PRECACHE req.url,
            Event.fetched req.url (FetchResult.response resp)]
    ∧ findStore RUNTIME (onFetch env net faults s req).2.1 = findStore RUNTIME s
    ∧ (∀ key, cacheMatch RUNTIME key (onFetch env net faults s req).2.1
        = cacheMatch RUNTIME key s) := by
  rw [onFetch_intercepted env net faults s req u hGet hUrl hOrigin,
    respondTo_miss_eq env net faults s req hPre]
  have hne : RUNTIME ≠ PRECACHE := fun e => names_distinct.2.1 e.symm
  simp only [hNet, hOk, Bool.false_eq_true, if_false, true_and, List.cons_append,
    List.nil_append, List.singleton_append, findStore_openStore_ne hne, cacheMatch_openStore,
    implies_true, and_self]

theorem fetch_error_status_passthrough_witness :
    (onFetch sampleEnv (constNet notFound) noFaults
        [(PRECACHE, [("https://app.example/Explorer6/index.html", okResp "shell")]),
          (RUNTIME, [("https://app.example/Explorer6/gone.html", okResp "old")])]
        (sampleGet "https://app.example/Explorer6/gone.html#top" "navigate")).1
      = FetchOutcome.respond notFound
    ∧ (onFetch sampleEnv (constNet notFound) noFaults
        [(PRECACHE, [("https://app.example/Explorer6/index.html", okResp "shell")]),
          (RUNTIME, [("https://app.example/Explorer6/gone.html", okResp "old")])]
        (sampleGet "https://app.example/Explorer6/gone.html#top" "navigate")).2.2
      = [Event.opened PRECACHE,
          Event.matched PRECACHE "https://app.example/Explorer6/gone.html#top",
          Event.fetched "https://app.example/Explorer6/gone.html#top"
            (FetchResult.response notFound)] :=
  have h := fetch_error_status_passthrough sampleEnv (constNet notFound) noFaults
    [(PRECACHE, [("https://app.example/Explorer6/index.html", okResp "shell")]),
      (RUNTIME, [("https://app.example/Explorer6/gone.html", okResp "old")])]
    (sampleGet "https://app.example/Explorer6/gone.html#top" "navigate")
    { origin := "https://app.example",
      withoutHash := "https://app.example/Explorer6/gone.html", hash := "#top" }
    notFound rfl (by decide) rfl (by decide) rfl (by decide)
  ⟨h.1, h.2.1⟩

/-- C8: a same-origin GET request that matches no precache entry and whose network fetch throws
is answered with the layered fallback: the runtime entry of the request if there is one; else,
for a navigation, the precached `index.html`, else the precached site root; else the synthetic
response with status 503, status text "Offline" and body "Offline". So the synthetic response is
the answer exactly when no layer supplies one. -/
theorem fetch_network_error_fallback (env : Env) (net : Network) (faults : Faults)
    (s : Stores) (req : Request) (u : Url) (hGet : req.method = "GET")
    (hUrl : env.parseUrl req.url = some u) (hOrigin : u.origin = env.origin)
    (hPre : cacheMatch PRECACHE req.url s = none)
    (hNet : net 0 req.url = FetchResult.networkError) :
    (onFetch env net faults s req).1 = FetchOutcome.respond (layeredFallback env s req)
    ∧ (∀ r, cacheMatch RUNTIME req.url s = some r →
        (onFetch env net faults s req).1 = FetchOutcome.respond r)
    ∧ (∀ r, cacheMatch RUNTIME req.url s = none → req.mode = "navigate" →
        cacheMatch PRECACHE (hrefOf env "./index.html") s = some r →
        (onFetch env net faults s req).1 = FetchOutcome.respond r)
    ∧ (∀ r, cacheMatch RUNTIME req.url s = none → req.mode = "navigate" →
        cacheMatch PRECACHE (hrefOf env "./index.html") s = none →
        cacheMatch PRECACHE (hrefOf env "./") s = some r →
        (onFetch env net faults s req).1 = FetchOutcome.respond r)
    ∧ (cacheMatch RUNTIME req.url s = none →
        (req.mode = "navigate" →
          cacheMatch PRECACHE (hrefOf env "./index.html") s = none
          ∧ cacheMatch PRECACHE (hrefOf env "./") s = none) →
        (onFetch env net faults s req).1 = FetchOutcome.respond offlineResponse)
    ∧ offlineResponse = { status := 503, statusText := "Offline", body := "Offline" } := by
  have hmain : (onFetch env net faults s req).1
      = FetchOutcome.respond (layeredFallback env s req) := by
    rw [onFetch_intercepted env net faults s req u hGet hUrl hOrigin,
      respondTo_miss_eq env net faults s req hPre]
    simp only [hNet]
    rw [fetchFallback_response]
    unfold layeredFallback
    simp only [cacheMatch_openStore]
  refine ⟨hmain, ?_, ?_, ?_, ?_, rfl⟩
  · intro r h1
    rw [hmain]
    simp [layeredFallback, h1]
  · intro r h1 h2 h3
    rw [hmain]
    simp [layeredFallback, h1, h2, h3]
  · intro r h1 h2 h3 h4
    rw [hmain]
    simp [layeredFallback, h1, h2, h3, h4]
  · intro h1 h2
    rw [hmain]
    by_cases hn : req.mode = "navigate"
    · simp [layeredFallback, h1, hn, (h2 hn).1, (h2 hn).2]
    · simp [layeredFallback, h1, hn]

theorem fetch_network_error_fallback_witness :
    (onFetch sampleEnv (fun _ _ => FetchResult.networkError) noFaults
        [(PRECACHE, [("https://app.example/Explorer6/index.html", okResp "shell")]),
          (RUNTIME, [("https://app.example/Explorer6/data.json", okResp "stored")])]
        (sampleGet "https://app.example/Explorer6/data.json#x" "cors")).1
      = FetchOutcome.respond (okResp "stored") :=
  (fetch_network_error_fallback sampleEnv (fun _ _ => FetchResult.networkError) noFaults
    [(PRECACHE, [("https://app.example/Explorer6/index.html", okResp "shell")]),
      (RUNTIME, [("https://app.example/Explorer6/data.json", okResp "stored")])]
    (sampleGet "https://app.example/Explorer6/data.json#x" "cors")
    { origin := "https://app.example",
      withoutHash := "https://app.example/Explorer6/data.json", hash := "#x" }
    rfl (by decide) rfl (by decide) rfl).2.1 (okResp "stored") (by decide)

/-- Sample runs of the fallback order with the network down: a navigation to a page that is
in no store gets the precached `index.html`, or the precached site root when `index.html` is
not precached; a request that is no navigation gets the synthetic response. -/
theorem fetch_fallback_samples :
    (onFetch sampleEnv (fun _ _ => FetchResult.networkError) noFaults
        [(PRECACHE, [("https://app.example/Explorer6/", okResp "root"),
          ("https://app.example/Explorer6/index.html", okResp "shell")])]
        (sampleGet "https://app.example/Explorer6/page/7#s" "navigate")).1
      = FetchOutcome.respond (okResp "shell")
    ∧ (onFetch sampleEnv (fun _ _ => FetchResult.networkError) noFaults
        [(PRECACHE, [("https://app.example/Explorer6/", okResp "root")])]
        (sampleGet "https://app.example/Explorer6/page/7" "navigate")).1
      = FetchOutcome.respond (okResp "root")
    ∧ (onFetch sampleEnv (fun _ _ => FetchResult.networkError) noFaults
        [(PRECACHE, [("https://app.example/Explorer6/", okResp "root")])]
        (sampleGet "https://app.example/Explorer6/page/7" "cors")).1
      = FetchOutcome.respond offlineResponse := by
  decide

/-- C10, at a failing input: a same-origin GET request without precache entry, the network
answering 200, and `caches.open(RUNTIME)` of line 129 rejecting.  The rejection is thrown
inside the `try` block, so the `catch` block of the network failure runs and the caller gets
the synthetic 503 instead of the live response.  A rejecting `put` alone is swallowed. -/
theorem fetch_open_rejection_drops_live_response :
    (onFetch sampleEnv (constNet (okResp "live")) { openRuntime := true, putRuntime := false }
        [(PRECACHE, [])] (sampleGet "https://app.example/Explorer6/api/list.json" "cors")).1
      = FetchOutcome.respond offlineResponse
    ∧ (onFetch sampleEnv (constNet (okResp "live")) { openRuntime := false, putRuntime := true }
        [(PRECACHE, [])] (sampleGet "https://app.example/Explorer6/api/list.json" "cors")).1
      = FetchOutcome.respond (okResp "live") := by
  decide

/-! ## Activation -/

theorem purge_foldl (deleteFails : String → Bool) (ks : List String) (b : Bool) (st : Stores)
    (ev : List Event) :
    (ks.foldl (fun acc key => purgeOne deleteFails key acc) (b, st, ev)).1
        = (b || ks.any (fun k => !includes k VERSION && deleteFails k))
    ∧ (ks.foldl (fun acc key => purgeOne deleteFails key acc) (b, st, ev)).2.1
        = st.filter (fun p =>
            !(decide (p.1 ∈ ks) && (!includes p.1 VERSION && !deleteFails p.1)))
    ∧ (ks.foldl (fun acc key => purgeOne deleteFails key acc) (b, st, ev)).2.2
        = ev ++ (ks.filter (fun k => !includes k VERSION)).map
            (fun k => if deleteFails k then Event.storeDeleteRejected k
              else Event.storeDeleted k) := by
  induction ks generalizing b st ev with
  | nil => simp
  | cons k ks ih =>
    rw [List.foldl_cons]
    by_cases hinc : includes k VERSION = true
    · have hstep : purgeOne deleteFails k (b, st, ev) = (b, st, ev) := by
        simp [purgeOne, hinc]
      rw [hstep]
      obtain ⟨h1, h2, h3⟩ := ih b st ev
      refine ⟨?_, ?_, ?_⟩
      · rw [h1]; simp [hinc]
      · rw [h2]
        apply List.filter_congr
        intro p _
        by_cases hp : p.1 = k
        · simp [hp, hinc]
        · simp [hp]
      · rw [h3]; simp [List.filter_cons, hinc]
    · have hinc2 : includes k VERSION = false := by simpa using hinc
      by_cases hf : deleteFails k = true
      · have hstep : purgeOne deleteFails k (b, st, ev)
            = (true, st, ev ++ [Event.storeDeleteRejected k]) := by
          simp [purgeOne, hinc2, hf]
        rw [hstep]
        obtain ⟨h1, h2, h3⟩ := ih true st (ev ++ [Event.storeDeleteRejected k])
        refine ⟨?_, ?_, ?_⟩
        · rw [h1]; simp [hinc2, hf]
        · rw [h2]
          apply List.filter_congr
          intro p _
          by_cases hp : p.1 = k
          · simp [hp, hinc2, hf]
          · simp [hp]
        · rw [h3]; simp [List.filter_cons, hinc2, hf]
      · have hf2 : deleteFails k = false := by simpa using hf
        have hstep : purgeOne deleteFails k (b, st, ev)
            = (b, deleteStore k st, ev ++ [Event.storeDeleted k]) := by
          simp [purgeOne, hinc2, hf2]
        rw [hstep]
        obtain ⟨h1, h2, h3⟩ := ih b (deleteStore k st) (ev ++ [Event.storeDeleted k])
        refine ⟨?_, ?_, ?_⟩
        · rw [h1]; simp [hinc2, hf2]
        · rw [h2]
          unfold deleteStore
          rw [List.filter_filter]
          apply List.filter_congr
          intro p _
          by_cases hp : p.1 = k
          · simp [hp, hinc2, hf2]
          · simp [hp]
        · rw [h3]; simp [List.filter_cons, hinc2, hf2]

theorem findStore_filter (keep : String → Bool) (name : String) (hk : keep name = true)
    (s : Stores) : findStore name (s.filter (fun p => keep p.1)) = findStore name s := by
  induction s with
  | nil => rfl
  | cons p rest ih =>
    obtain ⟨n, c⟩ := p
    by_cases h : n = name
    · subst h
      simp [List.filter_cons, hk, findStore]
    · by_cases hn : keep n = true
      · simp [List.filter_cons, hn, findStore, h, ih]
      · simp [List.filter_cons, hn, findStore, h, ih]

theorem activate_no_rejection (deleteFails : String → Bool) (s : Stores)
    (hdel : ∀ name, deleteFails name = false) :
    activate deleteFails s
      = (ActivateOutcome.activated, s.filter (fun p => includes p.1 VERSION),
          [Event.listedStores]
            ++ ((storeNames s).filter (fun k => !includes k VERSION)).map Event.storeDeleted
            ++ [Event.claimedClients]) := by
  obtain ⟨h1, h2, h3⟩ := purge_foldl deleteFails (storeNames s) false s [Event.listedStores]
  have hflag : (List.foldl (fun acc key => purgeOne deleteFails key acc)
      (false, s, [Event.listedStores]) (storeNames s)).1 = false := by
    rw [h1]; simp [hdel]
  have hst : (List.foldl (fun acc key => purgeOne deleteFails key acc)
      (false, s, [Event.listedStores]) (storeNames s)).2.1
      = s.filter (fun p => includes p.1 VERSION) := by
    rw [h2]
    apply List.filter_congr
    intro p hp
    have hmem : p.1 ∈ storeNames s := List.mem_map_of_mem Prod.fst hp
    simp [hmem, hdel]
  have hev : (List.foldl (fun acc key => purgeOne deleteFails key acc)
      (false, s, [Event.listedStores]) (storeNames s)).2.2
      = [Event.listedStores]
        ++ ((storeNames s).filter (fun k => !includes k VERSION)).map Event.storeDeleted := by
    rw [h3]; simp [hdel]
  unfold activate
  simp only [hflag, hst, hev, Bool.false_eq_true, if_false]

/-- C3: when no store deletion rejects, the activate handler succeeds and leaves exactly the
stores whose name contains the version identifier, each with its contents: no store whose
name lacks the identifier remains, a store whose name contains it is found unchanged, and the
stores deleted are exactly those whose name lacks it (none, when there is none). -/
theorem activate_keeps_exactly_current_version (deleteFails : String → Bool) (s : Stores)
    (hdel : ∀ name, deleteFails name = false) :
    (activate deleteFails s).1 = ActivateOutcome.activated
    ∧ (activate deleteFails s).2.1 = s.filter (fun p => includes p.1 VERSION)
    ∧ (∀ name, name ∈ storeNames (activate deleteFails s).2.1
        ↔ name ∈ storeNames s ∧ includes name VERSION = true)
    ∧ (∀ name, includes name VERSION = true →
        findStore name (activate deleteFails s).2.1 = findStore name s)
    ∧ (∀ name, Event.storeDeleted name ∈ (activate deleteFails s).2.2
        ↔ name ∈ storeNames s ∧ includes name VERSION = false) := by
  rw [activate_no_rejection deleteFails s hdel]
  refine ⟨rfl, rfl, ?_, ?_, ?_⟩
  · intro name
    simp only [storeNames, List.mem_map, List.mem_filter]
    constructor
    · rintro ⟨p, ⟨hp, hinc⟩, rfl⟩
      exact ⟨⟨p, hp, rfl⟩, hinc⟩
    · rintro ⟨⟨p, hp, rfl⟩, hinc⟩
      exact ⟨p, ⟨hp, hinc⟩, rfl⟩
  · intro name hinc
    exact findStore_filter (fun n => includes n VERSION) name hinc s
  · intro name
    simp

theorem activate_keeps_exactly_current_version_witness :
    (activate (fun _ => false)
        [("precache-old-build", [("https://app.example/a", okResp "a")]),
          (PRECACHE, [("https://app.example/b", okResp "b")]), ("runtime-old-build", [])]).2.1
      = [(PRECACHE, [("https://app.example/b", okResp "b")])] :=
  ((activate_keeps_exactly_current_version (fun _ => false)
    [("precache-old-build", [("https://app.example/a", okResp "a")]),
      (PRECACHE, [("https://app.example/b", okResp "b")]), ("runtime-old-build", [])]
    (fun _ => rfl)).2.1).trans (by decide)

theorem includesChars_append_of_head_not_mem (c : Char) (rest pre v : List Char)
    (hc : c ∉ pre) (h : includesChars (c :: rest) (pre ++ v) = true) :
    includesChars (c :: rest) v = true := by
  induction pre with
  | nil => simpa using h
  | cons p ps ih =>
    have hp : ¬ c = p := fun e => hc (by simp [e])
    have hps : c ∉ ps := fun e => hc (List.mem_cons_of_mem _ e)
    apply ih hps
    simpa [includesChars, List.isPrefixOf, hp] using h

theorem includes_role_append (pre v : String)
    (hpre : pre ∈ ["precache-", "temp-", "runtime-"])
    (h : includes (pre ++ v) VERSION = true) : includes v VERSION = true := by
  have hv : VERSION.data = 'v' :: "r-explorer-pro-atomic-2025-10-24b".data := by decide
  have hc : 'v' ∉ pre.data := by
    simp only [List.mem_cons, List.mem_singleton, List.not_mem_nil, or_false] at hpre
    rcases hpre with rfl | rfl | rfl <;> decide
  unfold includes at h ⊢
  rw [hv] at h ⊢
  rw [String.data_append] at h
  exact includesChars_append_of_head_not_mem _ _ _ _ hc h

/-- C4, at a failing input: the stores `precache-` ++ `VERSION` and `precache-` ++ `VERSION`
++ `-rc2` exist and every deletion succeeds.  The version identifier `VERSION ++ "-rc2"`
differs from `VERSION`, but the name of its store contains `VERSION`, so the test of line 106
keeps it: after the activation both precache stores are still there. -/
theorem activate_keeps_version_with_current_inside :
    (activate (fun _ => false)
        [(PRECACHE, []), ("precache-" ++ (VERSION ++ "-rc2"), [])]).1
      = ActivateOutcome.activated
    ∧ VERSION ++ "-rc2" ≠ VERSION
    ∧ storeNames (activate (fun _ => false)
        [(PRECACHE, []), ("precache-" ++ (VERSION ++ "-rc2"), [])]).2.1
      = ["precache-" ++ VERSION, "precache-" ++ (VERSION ++ "-rc2")] := by
  decide

/-- What the purge of the activate handler does reach: after the handler has completed, for
every version identifier `v` that does not contain `VERSION` and every role `pre` among
`precache-`, `temp-`, `runtime-`, no store named `pre ++ v` exists. -/
theorem activate_purges_versions_lacking_current (deleteFails : String → Bool) (s : Stores)
    (v pre : String) (hdone : (activate deleteFails s).1 = ActivateOutcome.activated)
    (hpre : pre ∈ ["precache-", "temp-", "runtime-"]) (hv : includes v VERSION = false) :
    pre ++ v ∉ storeNames (activate deleteFails s).2.1 := by
  obtain ⟨h1, h2, _⟩ := purge_foldl deleteFails (storeNames s) false s [Event.listedStores]
  have hflag : (List.foldl (fun acc key => purgeOne deleteFails key acc)
      (false, s, [Event.listedStores]) (storeNames s)).1 = false := by
    by_contra hne
    have ht : (List.foldl (fun acc key => purgeOne deleteFails key acc)
        (false, s, [Event.listedStores]) (storeNames s)).1 = true := by simpa using hne
    simp [activate, ht] at hdone
  have hst : (activate deleteFails s).2.1
      = s.filter (fun p => !(decide (p.1 ∈ storeNames s)
          && (!includes p.1 VERSION && !deleteFails p.1))) := by
    unfold activate
    simp only [hflag, Bool.false_eq_true, if_false]
    exact h2
  rw [h1] at hflag
  intro hmem
  rw [hst] at hmem
  simp only [storeNames, List.mem_map, List.mem_filter] at hmem
  obtain ⟨p, ⟨hp, hkeep⟩, hname⟩ := hmem
  have hinStore : p.1 ∈ storeNames s := List.mem_map_of_mem Prod.fst hp
  have hlack : includes p.1 VERSION = false := by
    rw [hname]
    cases hi : includes (pre ++ v) VERSION with
    | false => rfl
    | true => rw [includes_role_append pre v hpre hi] at hv; exact absurd hv (by decide)
  have hnofail : deleteFails p.1 = false := by
    cases hd : deleteFails p.1 with
    | false => rfl
    | true =>
      have : (storeNames s).any (fun k => !includes k VERSION && deleteFails k) = true :=
        List.any_eq_true.mpr ⟨p.1, hinStore, by simp [hlack, hd]⟩
      simp [this] at hflag
  simp [storeNames, hlack, hnofail] at hkeep
  exact hkeep p.2 (by simpa using hp)

theorem activate_purges_versions_lacking_current_witness :
    "runtime-" ++ "vr-explorer-pro-2025-09-30" ∉ storeNames (activate (fun _ => false)
      [("runtime-vr-explorer-pro-2025-09-30", []), (PRECACHE, [])]).2.1 :=
  activate_purges_versions_lacking_current (fun _ => false)
    [("runtime-vr-explorer-pro-2025-09-30", []), (PRECACHE, [])]
    "vr-explorer-pro-2025-09-30" "runtime-" (by decide) (by decide) (by decide)

/-! ## Asset discovery -/

theorem mem_setAdd (found : List String) (x y : String) :
    y ∈ setAdd found x ↔ y ∈ found ∨ y = x := by
  unfold setAdd
  by_cases h : x ∈ found
  · simp only [h, if_true]
    constructor
    · exact Or.inl
    · rintro (h1 | rfl)
      · exact h1
      · exact h
  · simp [h]

theorem nodup_setAdd (found : List String) (x : String) (h : found.Nodup) :
    (setAdd found x).Nodup := by
  unfold setAdd
  by_cases hx : x ∈ found
  · simpa [hx] using h
  · simp only [hx, if_false]
    rw [List.nodup_append]
    refine ⟨h, List.nodup_singleton x, ?_⟩
    intro a ha hb
    rw [List.mem_singleton] at hb
    exact hx (hb ▸ ha)

theorem mem_setDelete (found : List String) (x y : String) :
    y ∈ setDelete found x ↔ y ∈ found ∧ y ≠ x := by
  simp [setDelete]

theorem nodup_setDelete (found : List String) (x : String) (h : found.Nodup) :
    (setDelete found x).Nodup :=
  h.filter _

theorem nodup_addMatch (env : Env) (found : List String) (m1 : List Char) (h : found.Nodup) :
    (addMatch env found m1).Nodup := by
  unfold addMatch
  split
  · exact h
  · split
    · split
      · exact nodup_setAdd _ _ h
      · exact h
    · exact h

theorem nodup_foldl_addMatch (env : Env) (ms : List (List Char)) (found : List String)
    (h : found.Nodup) : (ms.foldl (addMatch env) found).Nodup := by
  induction ms generalizing found with
  | nil => exact h
  | cons m ms ih => exact ih _ (nodup_addMatch env found m h)

theorem nodup_scan (env : Env) (htmlText : String) (pats : List (List Rx))
    (found : List String) (h : found.Nodup) :
    (pats.foldl (fun found rx => (execAll rx 0 htmlText.data).foldl (addMatch env) found)
      found).Nodup := by
  induction pats generalizing found with
  | nil => exact h
  | cons rx pats ih => exact ih _ (nodup_foldl_addMatch env _ found h)

theorem hrefOf_ne (env : Env) (a b : String) (h : a.drop 2 ≠ b.drop 2) :
    hrefOf env a ≠ hrefOf env b := by
  unfold hrefOf
  intro e
  apply h
  have e2 := congrArg String.data e
  rw [String.data_append, String.data_append] at e2
  exact String.ext (List.append_cancel_left e2)

theorem discoverAssets_facts (env : Env) (htmlText : String) :
    hrefOf env "./" ∈ discoverAssetsFromHtml env htmlText
    ∧ hrefOf env "./index.html" ∈ discoverAssetsFromHtml env htmlText
    ∧ hrefOf env "./manifest.json" ∈ discoverAssetsFromHtml env htmlText
    ∧ hrefOf env "./sw.js" ∉ discoverAssetsFromHtml env htmlText
    ∧ (discoverAssetsFromHtml env htmlText).Nodup := by
  have h1 : hrefOf env "./" ≠ hrefOf env "./sw.js" := hrefOf_ne env _ _ (by decide)
  have h2 : hrefOf env "./index.html" ≠ hrefOf env "./sw.js" := hrefOf_ne env _ _ (by decide)
  have h3 : hrefOf env "./manifest.json" ≠ hrefOf env "./sw.js" :=
    hrefOf_ne env _ _ (by decide)
  unfold discoverAssetsFromHtml
  simp only [mem_setDelete, mem_setAdd]
  refine ⟨⟨by simp, h1⟩, ⟨by simp, h2⟩, ⟨by simp, h3⟩, fun h => h.2 rfl, ?_⟩
  apply nodup_setDelete
  apply nodup_setAdd
  apply nodup_setAdd
  apply nodup_setAdd
  exact nodup_scan env htmlText ASSET_ATTR_PATTERNS [] List.nodup_nil

/-- C9: for every entry-document text, the list returned by `discoverAssetsFromHtml` contains
the site root URL, the URL of `index.html` and the URL of `manifest.json`, does not contain
the URL of `sw.js` (whatever the markup references), and has no duplicate. -/
theorem discoverAssets_manifest_contract (env : Env) (htmlText : String) :
    hrefOf env "./" ∈ discoverAssetsFromHtml env htmlText
    ∧ hrefOf env "./index.html" ∈ discoverAssetsFromHtml env htmlText
    ∧ hrefOf env "./manifest.json" ∈ discoverAssetsFromHtml env htmlText
    ∧ hrefOf env "./sw.js" ∉ discoverAssetsFromHtml env htmlText
    ∧ (discoverAssetsFromHtml env htmlText).Nodup :=
  discoverAssets_facts env htmlText

set_option maxRecDepth 20000 in
/-- A run of the discovery on markup that references the worker script, a script, a
cross-origin style sheet, an image reference that the URL parser refuses, a `poster` attribute (which no
pattern reads) and twice the same video. -/
theorem discoverAssets_sample :
    discoverAssetsFromHtml sampleEnv
        "<SCRIPT defer SRC=\"sw.js\"></script><script src=\"app.js\"></script><link rel=\"x\" href=\"https://cdn.example/y.css\"><img src=\"https://[bad\"><video poster=\"p.png\" src=\"v.mp4\"><source src=\"v.mp4\">"
      = ["https://app.example/Explorer6/app.js", "https://app.example/Explorer6/v.mp4",
          "https://app.example/Explorer6/",
          "https://app.example/Explorer6/index.html",
          "https://app.example/Explorer6/manifest.json"] := by
  decide

/-! ## Install -/

theorem fetchAssets_precache (env : Env) (net : Network) (l : List String) (n : Nat)
    (s : Stores) (ev : List Event) :
    findStore PRECACHE (fetchAssets env net n l s ev).2.1 = findStore PRECACHE s := by
  induction l generalizing n s ev with
  | nil => rfl
  | cons a rest ih =>
    unfold fetchAssets
    by_cases hsw : a = hrefOf env "./sw.js"
    · simp only [hsw, if_true]
      exact ih n s ev
    · simp only [hsw, if_false]
      cases hnet : net n a with
      | networkError => rfl
      | response resp =>
        by_cases hok : resp.ok = true
        · simp only [hok, if_true]
          rw [ih]
          exact findStore_updateStore_ne names_distinct.1 _ _
        · simp only [hok]
          rfl

theorem noFailedFetch_append {ev ev2 : List Event} (h1 : noFailedFetch ev)
    (h2 : noFailedFetch ev2) : noFailedFetch (ev ++ ev2) := by
  intro url res hmem
  rcases List.mem_append.mp hmem with h | h
  · exact h1 url res h
  · exact h2 url res h

theorem fetchAssets_noFailedFetch (env : Env) (net : Network) (l : List String) (n : Nat)
    (s : Stores) (ev : List Event) (hdone : (fetchAssets env net n l s ev).1 = true)
    (hev : noFailedFetch ev) : noFailedFetch (fetchAssets env net n l s ev).2.2 := by
  induction l generalizing n s ev with
  | nil => exact hev
  | cons a rest ih =>
    unfold fetchAssets at hdone ⊢
    by_cases hsw : a = hrefOf env "./sw.js"
    · simp only [hsw, if_true] at hdone ⊢
      exact ih n s ev hdone hev
    · simp only [hsw, if_false] at hdone ⊢
      cases hnet : net n a with
      | networkError => simp [hnet] at hdone
      | response resp =>
        simp only [hnet] at hdone ⊢
        by_cases hok : resp.ok = true
        · simp only [hok, if_true] at hdone ⊢
          apply ih _ _ _ hdone
          apply noFailedFetch_append hev
          intro url res hmem
          simp only [List.mem_cons, List.mem_singleton, List.not_mem_nil, or_false,
            Event.fetched.injEq, reduceCtorEq] at hmem
          obtain ⟨_, rfl⟩ := hmem
          simp [FetchResult.failed, hok]
        · simp [hok] at hdone

theorem noFailedFetch_commitEvents (s : Stores) : noFailedFetch (commitEvents s) := by
  intro url res hmem
  simp [commitEvents] at hmem

theorem install_done_noFailedFetch (env : Env) (net : Network) (s : Stores)
    (hdone : (install env net s).1 = InstallOutcome.done) :
    noFailedFetch (install env net s).2.2 := by
  unfold install at hdone ⊢
  cases hnet : net 0 (hrefOf env "./index.html") with
  | networkError => simp [hnet] at hdone
  | response indexResp =>
    simp only [hnet] at hdone ⊢
    by_cases hok : indexResp.ok = true
    · simp only [hok, if_true] at hdone ⊢
      split at hdone
      · rename_i hloop
        simp only [hloop, if_true]
        apply noFailedFetch_append _ (noFailedFetch_commitEvents _)
        apply fetchAssets_noFailedFetch _ _ _ _ _ _ hloop
        intro url res hmem
        simp only [List.cons_append, List.nil_append, List.mem_cons, List.mem_singleton,
          List.not_mem_nil, or_false, Event.fetched.injEq, reduceCtorEq, false_or] at hmem
        obtain ⟨_, rfl⟩ := hmem
        simp [FetchResult.failed, hok]
      · simp at hdone
    · simp [hok] at hdone

theorem install_failed_precache (env : Env) (net : Network) (s : Stores)
    (hfail : (install env net s).1 = InstallOutcome.failed) :
    findStore PRECACHE (install env net s).2.1 = findStore PRECACHE s := by
  unfold install at hfail ⊢
  cases hnet : net 0 (hrefOf env "./index.html") with
  | networkError =>
    simp only [hnet]
    exact findStore_openStore_ne names_distinct.1 s
  | response indexResp =>
    simp only [hnet] at hfail ⊢
    by_cases hok : indexResp.ok = true
    · simp only [hok, if_true] at hfail ⊢
      split at hfail
      · simp at hfail
      · rename_i hloop
        simp only [hloop, Bool.false_eq_true, if_false]
        rw [fetchAssets_precache]
        unfold cachePut
        rw [findStore_updateStore_ne names_distinct.1]
        exact findStore_openStore_ne names_distinct.1 s
    · simp only [hok, Bool.false_eq_true, if_false]
      exact findStore_openStore_ne names_distinct.1 s

/-- C1: for every prior cache storage and every network, if a fetch made by the install
handler (of `index.html` or of a discovered asset) throws or resolves with a non-ok response,
then the install task fails and the precache store is as it was before: absent if it was
absent, with the same entries if it existed. -/
theorem install_all_or_nothing (env : Env) (net : Network) (s : Stores) (url : String)
    (res : FetchResult) (hfetch : Event.fetched url res ∈ (install env net s).2.2)
    (hbad : res.failed = true) :
    (install env net s).1 = InstallOutcome.failed
    ∧ findStore PRECACHE (install env net s).2.1 = findStore PRECACHE s := by
  have hfail : (install env net s).1 = InstallOutcome.failed := by
    cases hout : (install env net s).1 with
    | failed => rfl
    | done =>
      have h := install_done_noFailedFetch env net s hout url res hfetch
      rw [hbad] at h
      exact absurd h (by decide)
  exact ⟨hfail, install_failed_precache env net s hfail⟩

theorem install_all_or_nothing_witness :
    (install sampleEnv
        (siteNet [("https://app.example/Explorer6/index.html", "<script src=\"app.js\"></script>"),
          ("https://app.example/Explorer6/", "root")])
        [(PRECACHE, [("https://app.example/Explorer6/kept.css", okResp "kept")])]).1
      = InstallOutcome.failed
    ∧ findStore PRECACHE (install sampleEnv
        (siteNet [("https://app.example/Explorer6/index.html", "<script src=\"app.js\"></script>"),
          ("https://app.example/Explorer6/", "root")])
        [(PRECACHE, [("https://app.example/Explorer6/kept.css", okResp "kept")])]).2.1
      = findStore PRECACHE [(PRECACHE, [("https://app.example/Explorer6/kept.css", okResp "kept")])] :=
  install_all_or_nothing sampleEnv
    (siteNet [("https://app.example/Explorer6/index.html", "<script src=\"app.js\"></script>"),
      ("https://app.example/Explorer6/", "root")])
    [(PRECACHE, [("https://app.example/Explorer6/kept.css", okResp "kept")])]
    "https://app.example/Explorer6/app.js" (FetchResult.response notFound)
    (by decide) (by decide)

/-! ### The staging store after the asset loop -/

theorem cacheMatch_cachePut_ne_key {key other : String}
    (h : dropFragment key ≠ dropFragment other) (name : String) (r : Response) (s : Stores) :
    cacheMatch name key (cachePut name other r s) = cacheMatch name key s := by
  unfold cacheMatch cachePut
  rw [findStore_updateStore_same]
  cases findStore name s with
  | none => rfl
  | some c => simp [Cache.lookup_insert_ne h]

theorem lookup_isSome_iff (key : String) (c : Cache) :
    (Cache.lookup key c).isSome = true
      ↔ ∃ k, k ∈ c.map Prod.fst ∧ dropFragment k = dropFragment key := by
  induction c with
  | nil => simp [Cache.lookup]
  | cons p rest ih =>
    obtain ⟨k, r⟩ := p
    by_cases h : dropFragment k = dropFragment key
    · simp only [Cache.lookup, h, if_true, Option.isSome_some, true_iff]
      exact ⟨k, by simp, h⟩
    · simp only [Cache.lookup, h, if_false, ih, List.map_cons, List.mem_cons]
      constructor
      · rintro ⟨k2, h1, h2⟩
        exact ⟨k2, Or.inr h1, h2⟩
      · rintro ⟨k2, h1 | h1, h2⟩
        · exact absurd (h1 ▸ h2) h
        · exact ⟨k2, h1, h2⟩

theorem keys_remove (key : String) (c : Cache) (k : String) :
    k ∈ (Cache.remove key c).map Prod.fst
      ↔ k ∈ c.map Prod.fst ∧ dropFragment k ≠ dropFragment key := by
  simp only [Cache.remove, List.mem_map, List.mem_filter]
  constructor
  · rintro ⟨p, ⟨hp, hne⟩, rfl⟩
    exact ⟨⟨p, hp, rfl⟩, by simpa using hne⟩
  · rintro ⟨⟨p, hp, rfl⟩, hne⟩
    exact ⟨p, ⟨hp, by simpa using hne⟩, rfl⟩

theorem keys_insert (key : String) (r : Response) (c : Cache) (k : String) :
    k ∈ (Cache.insert key r c).map Prod.fst
      ↔ (k ∈ c.map Prod.fst ∧ dropFragment k ≠ dropFragment key) ∨ k = key := by
  unfold Cache.insert
  rw [List.map_append, List.mem_append, keys_remove]
  simp

theorem cacheKeys_openStore (name other : String) (s : Stores) :
    cacheKeys name (openStore other s) = cacheKeys name s := by
  unfold cacheKeys
  by_cases h : name = other
  · subst h
    rw [findStore_openStore_same]
    cases findStore name s <;> rfl
  · rw [findStore_openStore_ne h]

theorem mem_cacheKeys_cachePut (name key : String) (r : Response) (s : Stores) (k : String)
    (h : k ∈ cacheKeys name (cachePut name key r s)) : k ∈ cacheKeys name s ∨ k = key := by
  unfold cacheKeys cachePut at h
  rw [findStore_updateStore_same] at h
  unfold cacheKeys
  cases hf : findStore name s with
  | none => simp [hf] at h
  | some c =>
    simp only [hf, Option.map_some'] at h
    rcases (keys_insert key r c k).mp h with h1 | h1
    · exact Or.inl h1.1
    · exact Or.inr h1

theorem mem_foldl_setAdd (l acc : List String) (x : String) :
    x ∈ l.foldl setAdd acc ↔ x ∈ acc ∨ x ∈ l := by
  induction l generalizing acc with
  | nil => simp
  | cons a rest ih =>
    rw [List.foldl_cons, ih, mem_setAdd]
    simp only [List.mem_cons]
    tauto

theorem nodup_foldl_setAdd (l acc : List String) (h : acc.Nodup) :
    (l.foldl setAdd acc).Nodup := by
  induction l generalizing acc with
  | nil => exact h
  | cons a rest ih => exact ih _ (nodup_setAdd acc a h)

theorem fetchAssets_staging (env : Env) (net : Network) (l : List String) (n : Nat)
    (s : Stores) (ev : List Event) (hdone : (fetchAssets env net n l s ev).1 = true)
    (hnd : (l.map dropFragment).Nodup) (hopen : (findStore TEMP s).isSome = true) :
    (findStore TEMP (fetchAssets env net n l s ev).2.1).isSome = true
    ∧ (∀ k, (∀ a, a ∈ l → a ≠ hrefOf env "./sw.js" → dropFragment k ≠ dropFragment a) →
        cacheMatch TEMP k (fetchAssets env net n l s ev).2.1 = cacheMatch TEMP k s)
    ∧ (∀ k, k ∈ l → k ≠ hrefOf env "./sw.js" →
        ∃ resp, cacheMatch TEMP k (fetchAssets env net n l s ev).2.1 = some resp
          ∧ Event.fetched k (FetchResult.response resp)
              ∈ (fetchAssets env net n l s ev).2.2)
    ∧ (∀ e, e ∈ ev → e ∈ (fetchAssets env net n l s ev).2.2)
    ∧ (∀ k, k ∈ cacheKeys TEMP (fetchAssets env net n l s ev).2.1 →
        k ∈ cacheKeys TEMP s ∨ k ∈ l) := by
  induction l generalizing n s ev with
  | nil =>
    refine ⟨hopen, fun _ _ => rfl, ?_, fun _ h => h, fun _ h => Or.inl h⟩
    intro k hk
    simp at hk
  | cons a rest ih =>
    rw [List.map_cons] at hnd
    have hnd2 : (rest.map dropFragment).Nodup := (List.nodup_cons.mp hnd).2
    have ha : ∀ b, b ∈ rest → dropFragment a ≠ dropFragment b := by
      intro b hb e
      exact (List.nodup_cons.mp hnd).1 (e ▸ List.mem_map_of_mem dropFragment hb)
    unfold fetchAssets at hdone ⊢
    by_cases hsw : a = hrefOf env "./sw.js"
    · simp only [hsw, if_true] at hdone ⊢
      obtain ⟨i1, i2, i3, i4, i5⟩ := ih n s ev hdone hnd2 hopen
      refine ⟨i1, ?_, ?_, i4, ?_⟩
      · intro k hk
        apply i2
        intro b hb hne
        exact hk b (List.mem_cons_of_mem _ hb) hne
      · intro k hk hne
        rcases List.mem_cons.mp hk with hk | hk
        · exact absurd hk hne
        · exact i3 k hk hne
      · intro k hk
        rcases i5 k hk with h | h
        · exact Or.inl h
        · exact Or.inr (List.mem_cons_of_mem _ h)
    · simp only [hsw, if_false] at hdone ⊢
      cases hnet : net n a with
      | networkError => simp [hnet] at hdone
      | response resp =>
        simp only [hnet] at hdone ⊢
        by_cases hok : resp.ok = true
        · simp only [hok, if_true] at hdone ⊢
          have hopen2 : (findStore TEMP (cachePut TEMP a resp s)).isSome = true := by
            unfold cachePut
            rw [findStore_updateStore_same]
            cases h : findStore TEMP s with
            | none => simp [h] at hopen
            | some c => rfl
          obtain ⟨i1, i2, i3, i4, i5⟩ := ih (n + 1) (cachePut TEMP a resp s)
            (ev ++ [Event.fetched a (FetchResult.response resp), Event.put TEMP a])
            hdone hnd2 hopen2
          refine ⟨i1, ?_, ?_, ?_, ?_⟩
          · intro k hk
            rw [i2 k (fun b hb hne => hk b (List.mem_cons_of_mem _ hb) hne)]
            exact cacheMatch_cachePut_ne_key (hk a (by simp) hsw) TEMP resp s
          · intro k hk hne
            rcases List.mem_cons.mp hk with hk | hk
            · subst hk
              refine ⟨resp, ?_, ?_⟩
              · rw [i2 k (fun b hb _ => ha b hb)]
                exact cacheMatch_cachePut_same TEMP k resp s hopen
              · apply i4
                simp
            · exact i3 k hk hne
          · intro e he
            exact i4 e (List.mem_append_left _ he)
          · intro k hk
            rcases i5 k hk with h | h
            · rcases mem_cacheKeys_cachePut TEMP a resp s k h with h2 | h2
              · exact Or.inl h2
              · exact Or.inr (by simp [h2])
            · exact Or.inr (List.mem_cons_of_mem _ h)
        · simp [hok] at hdone

/-! ### The commit -/

theorem nodup_keys_insert (key : String) (r : Response) (c : Cache)
    (h : (c.map Prod.fst).Nodup) : ((Cache.insert key r c).map Prod.fst).Nodup := by
  unfold Cache.insert
  rw [List.map_append, List.nodup_append]
  refine ⟨?_, by simp, ?_⟩
  · exact h.sublist ((List.filter_sublist c).map Prod.fst)
  · intro a ha hb
    simp only [List.map_cons, List.map_nil, List.mem_singleton] at hb
    exact ((keys_remove key c a).mp ha).2 (by rw [hb])

theorem foldl_remove_keys (ks : List String) (c : Cache)
    (h : ∀ k, k ∈ c.map Prod.fst → k ∈ ks) :
    ks.foldl (fun c k => Cache.remove k c) c = [] := by
  induction ks generalizing c with
  | nil =>
    cases c with
    | nil => rfl
    | cons p rest => exact absurd (h p.1 (by simp)) (by simp)
  | cons a ks ih =>
    rw [List.foldl_cons]
    apply ih
    intro k hk
    obtain ⟨h1, h2⟩ := (keys_remove a c k).mp hk
    rcases List.mem_cons.mp (h k h1) with e | e
    · exact absurd (congrArg dropFragment e) h2
    · exact e

theorem lookup_stageInto (staged c : Cache) (a k : String) :
    Cache.lookup k (stageInto staged c a)
      = if dropFragment k = dropFragment a ∧ (Cache.lookup k staged).isSome = true
        then Cache.lookup k staged else Cache.lookup k c := by
  unfold stageInto
  by_cases hka : dropFragment k = dropFragment a
  · rw [← Cache.lookup_congr hka staged]
    cases h : Cache.lookup k staged with
    | none => simp
    | some r =>
      simp only [hka, Option.isSome_some, and_self, if_true]
      rw [Cache.lookup_congr hka, Cache.lookup_insert_same]
  · cases h : Cache.lookup a staged with
    | none => simp [hka]
    | some r => simp [hka, Cache.lookup_insert_ne hka]

theorem lookup_foldl_stageInto (staged : Cache) (ks : List String) (c : Cache) (k : String) :
    Cache.lookup k (ks.foldl (stageInto staged) c)
      = if (∃ a, a ∈ ks ∧ dropFragment k = dropFragment a)
          ∧ (Cache.lookup k staged).isSome = true
        then Cache.lookup k staged else Cache.lookup k c := by
  induction ks generalizing c with
  | nil => simp
  | cons a ks ih =>
    rw [List.foldl_cons, ih, lookup_stageInto]
    by_cases h2 : (Cache.lookup k staged).isSome = true
    · by_cases h1 : ∃ b, b ∈ ks ∧ dropFragment k = dropFragment b
      · have h3 : ∃ b, b ∈ a :: ks ∧ dropFragment k = dropFragment b := by
          obtain ⟨b, hb, e⟩ := h1
          exact ⟨b, List.mem_cons_of_mem _ hb, e⟩
        rw [if_pos ⟨h1, h2⟩, if_pos ⟨h3, h2⟩]
      · by_cases h4 : dropFragment k = dropFragment a
        · have h3 : ∃ b, b ∈ a :: ks ∧ dropFragment k = dropFragment b :=
            ⟨a, by simp, h4⟩
          rw [if_neg (fun h => h1 h.1), if_pos ⟨h4, h2⟩, if_pos ⟨h3, h2⟩]
        · have h3 : ¬ ∃ b, b ∈ a :: ks ∧ dropFragment k = dropFragment b := by
            rintro ⟨b, hb, e⟩
            rcases List.mem_cons.mp hb with hb | hb
            · exact h4 (hb ▸ e)
            · exact h1 ⟨b, hb, e⟩
          rw [if_neg (fun h => h1 h.1), if_neg (fun h => h4 h.1), if_neg (fun h => h3 h.1)]
    · rw [if_neg (fun h => h2 h.2), if_neg (fun h => h2 h.2), if_neg (fun h => h2 h.2)]

theorem keys_foldl_stageInto_subset (staged : Cache) (ks : List String) (c : Cache)
    (k : String) (h : k ∈ (ks.foldl (stageInto staged) c).map Prod.fst) :
    k ∈ c.map Prod.fst ∨ k ∈ ks := by
  induction ks generalizing c with
  | nil => exact Or.inl h
  | cons a ks ih =>
    rw [List.foldl_cons] at h
    rcases ih _ h with h1 | h1
    · unfold stageInto at h1
      cases hl : Cache.lookup a staged with
      | none =>
        rw [hl] at h1
        exact Or.inl h1
      | some r =>
        rw [hl] at h1
        rcases (keys_insert a r c k).mp h1 with h2 | h2
        · exact Or.inl h2.1
        · exact Or.inr (by simp [h2])
    · exact Or.inr (List.mem_cons_of_mem _ h1)

theorem mem_keys_foldl_stageInto (staged : Cache) (ks : List String) (c : Cache) (k : String)
    (huniq : ∀ a, a ∈ ks → dropFragment a = dropFragment k → a = k)
    (h : k ∈ c.map Prod.fst ∨ (k ∈ ks ∧ (Cache.lookup k staged).isSome = true)) :
    k ∈ (ks.foldl (stageInto staged) c).map Prod.fst := by
  induction ks generalizing c with
  | nil =>
    rcases h with h | h
    · exact h
    · simp at h
  | cons a ks ih =>
    rw [List.foldl_cons]
    apply ih _ (fun b hb e => huniq b (List.mem_cons_of_mem _ hb) e)
    rcases h with h | ⟨h1, h2⟩
    · left
      unfold stageInto
      cases hl : Cache.lookup a staged with
      | none => exact h
      | some r =>
        simp only
        rw [keys_insert]
        by_cases e : dropFragment k = dropFragment a
        · exact Or.inr (huniq a (by simp) e.symm).symm
        · exact Or.inl ⟨h, e⟩
    · rcases List.mem_cons.mp h1 with h3 | h3
      · left
        subst h3
        unfold stageInto
        cases hl : Cache.lookup k staged with
        | none => simp [hl] at h2
        | some r =>
          simp only
          rw [keys_insert]
          exact Or.inr rfl
      · exact Or.inr ⟨h3, h2⟩

theorem nodup_foldl_stageInto (staged : Cache) (ks : List String) (c : Cache)
    (h : (c.map Prod.fst).Nodup) : ((ks.foldl (stageInto staged) c).map Prod.fst).Nodup := by
  induction ks generalizing c with
  | nil => exact h
  | cons a ks ih =>
    rw [List.foldl_cons]
    apply ih
    unfold stageInto
    cases Cache.lookup a staged with
    | none => exact h
    | some r => exact nodup_keys_insert a r c h

theorem clear_fold (ks : List String) (st : Stores) :
    findStore PRECACHE (ks.foldl (fun st k => cacheDelete PRECACHE k st) st)
        = (findStore PRECACHE st).map (fun c => ks.foldl (fun c k => Cache.remove k c) c)
    ∧ findStore TEMP (ks.foldl (fun st k => cacheDelete PRECACHE k st) st)
        = findStore TEMP st := by
  induction ks generalizing st with
  | nil => simp
  | cons a ks ih =>
    rw [List.foldl_cons]
    obtain ⟨h1, h2⟩ := ih (cacheDelete PRECACHE a st)
    refine ⟨?_, ?_⟩
    · rw [h1]
      unfold cacheDelete
      rw [findStore_updateStore_same]
      cases findStore PRECACHE st <;> simp
    · rw [h2]
      unfold cacheDelete
      exact findStore_updateStore_ne (fun e => names_distinct.1 e.symm) _ _

theorem copy_fold (staged : Cache) (ks : List String) (st : Stores)
    (hT : findStore TEMP st = some staged) :
    findStore TEMP (ks.foldl copyEntry st) = some staged
    ∧ findStore PRECACHE (ks.foldl copyEntry st)
        = (findStore PRECACHE st).map (fun c => ks.foldl (stageInto staged) c) := by
  induction ks generalizing st with
  | nil => simp [hT]
  | cons a ks ih =>
    rw [List.foldl_cons]
    have hm : cacheMatch TEMP a st = Cache.lookup a staged := by
      unfold cacheMatch
      rw [hT]
    have hstep : findStore TEMP (copyEntry st a) = some staged
        ∧ findStore PRECACHE (copyEntry st a)
            = (findStore PRECACHE st).map (fun c => stageInto staged c a) := by
      unfold copyEntry stageInto
      rw [hm]
      cases hl : Cache.lookup a staged with
      | none =>
        refine ⟨hT, ?_⟩
        cases findStore PRECACHE st <;> rfl
      | some r =>
        unfold cachePut
        refine ⟨?_, ?_⟩
        · rw [findStore_updateStore_ne (fun e => names_distinct.1 e.symm)]
          exact hT
        · rw [findStore_updateStore_same]
    obtain ⟨h1, h2⟩ := ih (copyEntry st a) hstep.1
    refine ⟨h1, ?_⟩
    rw [h2, hstep.2]
    cases findStore PRECACHE st <;> simp

theorem commit_promotes (s : Stores) (staged : Cache) (hT : findStore TEMP s = some staged) :
    findStore TEMP (commit s) = none
    ∧ findStore PRECACHE (commit s)
        = some ((staged.map Prod.fst).foldl (stageInto staged) []) := by
  have hne : TEMP ≠ PRECACHE := fun e => names_distinct.1 e.symm
  have h1 : findStore TEMP (openStore PRECACHE s) = some staged := by
    rw [findStore_openStore_ne hne]; exact hT
  obtain ⟨c1, c2⟩ := clear_fold (cacheKeys PRECACHE (openStore PRECACHE s))
    (openStore PRECACHE s)
  have h2 : findStore PRECACHE
      ((cacheKeys PRECACHE (openStore PRECACHE s)).foldl
        (fun st k => cacheDelete PRECACHE k st) (openStore PRECACHE s)) = some [] := by
    rw [c1, findStore_openStore_same]
    simp only [Option.map_some', cacheKeys, findStore_openStore_same]
    rw [foldl_remove_keys]
    intro k hk
    exact hk
  have h3 : findStore TEMP
      ((cacheKeys PRECACHE (openStore PRECACHE s)).foldl
        (fun st k => cacheDelete PRECACHE k st) (openStore PRECACHE s)) = some staged := by
    rw [c2]; exact h1
  unfold commit
  simp only
  refine ⟨findStore_deleteStore_same TEMP _, ?_⟩
  rw [findStore_deleteStore_ne names_distinct.1]
  have hk : cacheKeys TEMP
      ((cacheKeys PRECACHE (openStore PRECACHE s)).foldl
        (fun st k => cacheDelete PRECACHE k st) (openStore PRECACHE s))
      = staged.map Prod.fst := by
    have hgen : ∀ st : Stores, findStore TEMP st = some staged →
        cacheKeys TEMP st = staged.map Prod.fst := by
      intro st h
      unfold cacheKeys
      rw [h]
    exact hgen _ h3
  rw [hk]
  obtain ⟨_, d2⟩ := copy_fold staged (staged.map Prod.fst) _ h3
  rw [d2, h2]
  rfl

/-! ### A successful install -/

theorem install_done_eq (env : Env) (net : Network) (s : Stores) (indexResp : Response)
    (hnet : net 0 (hrefOf env "./index.html") = FetchResult.response indexResp)
    (hdone : (install env net s).1 = InstallOutcome.done) :
    indexResp.ok = true
    ∧ (fetchAssets env net 1 ((discoverAssetsFromHtml env indexResp.body).foldl setAdd [])
        (cachePut TEMP (hrefOf env "./index.html") indexResp (openStore TEMP s))
        ([Event.skippedWaiting, Event.opened TEMP]
          ++ [Event.fetched (hrefOf env "./index.html") (FetchResult.response indexResp)]
          ++ [Event.put TEMP (hrefOf env "./index.html")])).1 = true
    ∧ install env net s
      = (InstallOutcome.done,
          commit (fetchAssets env net 1
            ((discoverAssetsFromHtml env indexResp.body).foldl setAdd [])
            (cachePut TEMP (hrefOf env "./index.html") indexResp (openStore TEMP s))
            ([Event.skippedWaiting, Event.opened TEMP]
              ++ [Event.fetched (hrefOf env "./index.html") (FetchResult.response indexResp)]
              ++ [Event.put TEMP (hrefOf env "./index.html")])).2.1,
          (fetchAssets env net 1
            ((discoverAssetsFromHtml env indexResp.body).foldl setAdd [])
            (cachePut TEMP (hrefOf env "./index.html") indexResp (openStore TEMP s))
            ([Event.skippedWaiting, Event.opened TEMP]
              ++ [Event.fetched (hrefOf env "./index.html") (FetchResult.response indexResp)]
              ++ [Event.put TEMP (hrefOf env "./index.html")])).2.2
          ++ commitEvents (fetchAssets env net 1
            ((discoverAssetsFromHtml env indexResp.body).foldl setAdd [])
            (cachePut TEMP (hrefOf env "./index.html") indexResp (openStore TEMP s))
            ([Event.skippedWaiting, Event.opened TEMP]
              ++ [Event.fetched (hrefOf env "./index.html") (FetchResult.response indexResp)]
              ++ [Event.put TEMP (hrefOf env "./index.html")])).2.1) := by
  unfold install at hdone ⊢
  simp only [hnet] at hdone ⊢
  by_cases hok : indexResp.ok = true
  · simp only [hok, if_true] at hdone ⊢
    split at hdone
    · rename_i hloop
      simp only [hloop, if_true, and_self]
    · simp at hdone
  · simp [hok] at hdone

/-- A successful install over a staging store without foreign keys: when the install succeeds,
every discovered URL is free of a fragment, and every key of the staging store found at the
start (if there is one) is a URL of the manifest discovered in this run, the keys of the
precache store afterwards are the manifest (as a list without duplicates, up to order), every
manifest URL is mapped to a response fetched for it in this run, and the staging store is
gone.  The precache store found at the start may hold anything. -/
theorem install_success_promotes_manifest (env : Env) (net : Network) (s : Stores)
    (indexResp : Response)
    (hnet : net 0 (hrefOf env "./index.html") = FetchResult.response indexResp)
    (hdone : (install env net s).1 = InstallOutcome.done)
    (hfrag : ∀ k, k ∈ discoverAssetsFromHtml env indexResp.body → dropFragment k = k)
    (hstale : ∀ k, k ∈ cacheKeys TEMP s → k ∈ discoverAssetsFromHtml env indexResp.body) :
    (cacheKeys PRECACHE (install env net s).2.1).Perm
        (discoverAssetsFromHtml env indexResp.body)
    ∧ (∀ url, url ∈ discoverAssetsFromHtml env indexResp.body →
        ∃ r, cacheMatch PRECACHE url (install env net s).2.1 = some r
          ∧ Event.fetched url (FetchResult.response r) ∈ (install env net s).2.2)
    ∧ findStore TEMP (install env net s).2.1 = none := by
  obtain ⟨_, hloop, heq⟩ := install_done_eq env net s indexResp hnet hdone
  obtain ⟨_, hidx, _, hsw, hnd⟩ := discoverAssets_facts env indexResp.body
  rw [heq]
  simp only
  generalize hev : ([Event.skippedWaiting, Event.opened TEMP]
      ++ [Event.fetched (hrefOf env "./index.html") (FetchResult.response indexResp)]
      ++ [Event.put TEMP (hrefOf env "./index.html")]) = ev at hloop ⊢
  have hopen : (findStore TEMP
      (cachePut TEMP (hrefOf env "./index.html") indexResp (openStore TEMP s))).isSome
      = true := by
    unfold cachePut
    rw [findStore_updateStore_same, findStore_openStore_same]
    rfl
  have hmemToFetch : ∀ k, k ∈ (discoverAssetsFromHtml env indexResp.body).foldl setAdd []
      ↔ k ∈ discoverAssetsFromHtml env indexResp.body := by
    intro k
    rw [mem_foldl_setAdd]
    simp
  have hndToFetch : (((discoverAssetsFromHtml env indexResp.body).foldl setAdd []).map
      dropFragment).Nodup := by
    have hid : ((discoverAssetsFromHtml env indexResp.body).foldl setAdd []).map dropFragment
        = (discoverAssetsFromHtml env indexResp.body).foldl setAdd [] := by
      conv_rhs => rw [← List.map_id ((discoverAssetsFromHtml env indexResp.body).foldl setAdd [])]
      apply List.map_congr_left
      intro a ha
      exact hfrag a ((hmemToFetch a).mp ha)
    rw [hid]
    exact nodup_foldl_setAdd _ [] List.nodup_nil
  obtain ⟨i1, _, i3, _, i5⟩ := fetchAssets_staging env net
    ((discoverAssetsFromHtml env indexResp.body).foldl setAdd []) 1
    (cachePut TEMP (hrefOf env "./index.html") indexResp (openStore TEMP s)) ev hloop
    hndToFetch hopen
  generalize hr : fetchAssets env net 1
      ((discoverAssetsFromHtml env indexResp.body).foldl setAdd [])
      (cachePut TEMP (hrefOf env "./index.html") indexResp (openStore TEMP s)) ev = r
      at i1 i3 i5 ⊢
  cases hT : findStore TEMP r.2.1 with
  | none => simp [hT] at i1
  | some staged =>
    obtain ⟨c1, c2⟩ := commit_promotes r.2.1 staged hT
    have hkeysT : cacheKeys TEMP r.2.1 = staged.map Prod.fst := by
      unfold cacheKeys
      rw [hT]
    have hlook : ∀ k, cacheMatch PRECACHE k (commit r.2.1) = cacheMatch TEMP k r.2.1 := by
      intro k
      unfold cacheMatch
      rw [c2, hT]
      simp only
      rw [lookup_foldl_stageInto]
      by_cases hk : (Cache.lookup k staged).isSome = true
      · obtain ⟨a, ha, e⟩ := (lookup_isSome_iff k staged).mp hk
        rw [if_pos ⟨⟨a, ha, e.symm⟩, hk⟩]
      · rw [if_neg (fun h => hk h.2)]
        cases hl : Cache.lookup k staged with
        | none => rfl
        | some x => simp [hl] at hk
    have hstaged : ∀ k, k ∈ staged.map Prod.fst →
        k ∈ discoverAssetsFromHtml env indexResp.body := by
      intro k hk
      rw [← hkeysT] at hk
      rcases i5 k hk with h | h
      · rcases mem_cacheKeys_cachePut TEMP _ indexResp _ k h with h2 | h2
        · rw [cacheKeys_openStore] at h2
          exact hstale k h2
        · exact h2 ▸ hidx
      · exact (hmemToFetch k).mp h
    have hkeys : ∀ k, k ∈ cacheKeys PRECACHE (commit r.2.1)
        ↔ k ∈ discoverAssetsFromHtml env indexResp.body := by
      intro k
      have hP : cacheKeys PRECACHE (commit r.2.1)
          = ((staged.map Prod.fst).foldl (stageInto staged) []).map Prod.fst := by
        unfold cacheKeys
        rw [c2]
      rw [hP]
      constructor
      · intro hk
        rcases keys_foldl_stageInto_subset staged _ [] k hk with h | h
        · simp at h
        · exact hstaged k h
      · intro hk
        have hne : k ≠ hrefOf env "./sw.js" := fun e => hsw (e ▸ hk)
        obtain ⟨resp, h1, _⟩ := i3 k ((hmemToFetch k).mpr hk) hne
        have hsome : (Cache.lookup k staged).isSome = true := by
          unfold cacheMatch at h1
          rw [hT] at h1
          simp only at h1
          rw [h1]
          rfl
        obtain ⟨a, ha, e⟩ := (lookup_isSome_iff k staged).mp hsome
        have hak : a = k := by
          rw [← hfrag a (hstaged a ha), e, hfrag k hk]
        apply mem_keys_foldl_stageInto staged _ [] k
        · intro b hb e2
          rw [← hfrag b (hstaged b hb), e2, hfrag k hk]
        · exact Or.inr ⟨hak ▸ ha, hsome⟩
    refine ⟨?_, ?_, c1⟩
    · apply (List.perm_ext_iff_of_nodup ?_ hnd).mpr hkeys
      unfold cacheKeys
      rw [c2]
      exact nodup_foldl_stageInto staged _ [] List.nodup_nil
    · intro url hurl
      have hne : url ≠ hrefOf env "./sw.js" := fun e => hsw (e ▸ hurl)
      obtain ⟨resp, h1, h2⟩ := i3 url ((hmemToFetch url).mpr hurl) hne
      exact ⟨resp, by rw [hlook, h1], List.mem_append_left _ h2⟩

theorem install_success_promotes_manifest_sample :
    (cacheKeys PRECACHE (install sampleEnv (siteNet samplePages)
        [(PRECACHE, [("https://app.example/Explorer6/gone.css", okResp "gone")])]).2.1).Perm
      (discoverAssetsFromHtml sampleEnv "<script src=\"app.js\"></script>") :=
  (install_success_promotes_manifest sampleEnv (siteNet samplePages)
    [(PRECACHE, [("https://app.example/Explorer6/gone.css", okResp "gone")])]
    (okResp "<script src=\"app.js\"></script>") (by decide) (by decide) (by decide)
    (fun k hk => absurd hk (by simp [cacheKeys, findStore, names_distinct.1]))).1

/-! ### Sample installs -/

/-- C2, at a failing input: the staging store left by an earlier failed attempt holds
`old.js`; every fetch of this install succeeds and the manifest is the four URLs `app.js`,
the site root, `index.html`, `manifest.json`.  The staging store is reopened without being
cleared, so the commit copies `old.js` as well: the precache store ends with five keys, one of
them outside the manifest and mapped to a response that this install never fetched. -/
theorem install_leftover_staging_leaks :
    (install sampleEnv (siteNet samplePages) leftoverStaging).1 = InstallOutcome.done
    ∧ discoverAssetsFromHtml sampleEnv "<script src=\"app.js\"></script>"
      = ["https://app.example/Explorer6/app.js", "https://app.example/Explorer6/",
          "https://app.example/Explorer6/index.html",
          "https://app.example/Explorer6/manifest.json"]
    ∧ cacheKeys PRECACHE (install sampleEnv (siteNet samplePages) leftoverStaging).2.1
      = ["https://app.example/Explorer6/old.js", "https://app.example/Explorer6/app.js",
          "https://app.example/Explorer6/", "https://app.example/Explorer6/index.html",
          "https://app.example/Explorer6/manifest.json"]
    ∧ cacheMatch PRECACHE "https://app.example/Explorer6/old.js"
        (install sampleEnv (siteNet samplePages) leftoverStaging).2.1 = some (okResp "old")
    ∧ findStore TEMP (install sampleEnv (siteNet samplePages) leftoverStaging).2.1 = none := by
  decide

/-- The same install over an empty cache storage: the precache store gets exactly the four
manifest URLs. -/
theorem install_fresh_sample :
    (install sampleEnv (siteNet samplePages) []).1 = InstallOutcome.done
    ∧ (install sampleEnv (siteNet samplePages) []).2.1
      = [(PRECACHE,
          [("https://app.example/Explorer6/app.js", okResp "code"),
            ("https://app.example/Explorer6/", okResp "<script src=\"app.js\"></script>"),
            ("https://app.example/Explorer6/index.html",
              okResp "<script src=\"app.js\"></script>"),
            ("https://app.example/Explorer6/manifest.json", okResp "meta")])] := by
  decide

/-- Two installs of the same version in a row, from an empty cache storage.  The first fails
on `missing.js` and leaves the staging store with `index.html` and `old.js`.  The entry
document is then changed to reference `app.js` only; the second install succeeds and its
precache holds `old.js` next to the four manifest URLs. -/
theorem install_retry_leaks :
    (install sampleEnv (siteNet firstAttemptPages) []).1 = InstallOutcome.failed
    ∧ (install sampleEnv (siteNet firstAttemptPages) []).2.1
      = [(TEMP,
          [("https://app.example/Explorer6/index.html",
              okResp "<script src=\"old.js\"></script><script src=\"missing.js\"></script>"),
            ("https://app.example/Explorer6/old.js", okResp "old")])]
    ∧ (install sampleEnv (siteNet samplePages)
        (install sampleEnv (siteNet firstAttemptPages) []).2.1).1 = InstallOutcome.done
    ∧ cacheKeys PRECACHE (install sampleEnv (siteNet samplePages)
        (install sampleEnv (siteNet firstAttemptPages) []).2.1).2.1
      = ["https://app.example/Explorer6/old.js", "https://app.example/Explorer6/app.js",
          "https://app.example/Explorer6/", "https://app.example/Explorer6/index.html",
          "https://app.example/Explorer6/manifest.json"] := by
  decide

end SW
